import Mathlib

/-!
Verification of the worktime Work Record & Reporting Engine.

The definitions below are a shallow embedding of the TypeScript sources:
`api/src/work/work.service.ts`, `api/src/work/mysql.repository.ts` and
`api/src/mcp/worktime-mcp.ts`.  JavaScript strings are modelled by `String`
(working over `String.data : List Char` so that everything reduces), JS
numbers that the code constrains to integers are modelled by `Int`/`Nat`,
`null`/`undefined` by `Option`, thrown exceptions by `Except AppError`,
and the repository (MySQL) state by explicit record structures.
-/

/-- Error kinds of the service: `BadRequestException` (validation),
`NotFoundException` and `InternalServerErrorException`. -/
inductive AppError where
  | badRequest (message : String)
  | notFound (message : String)
  | internalError (message : String)
deriving DecidableEq, Repr

deriving instance DecidableEq for Except

/-- Character-list split on a separator, mirroring JS `String.prototype.split`
with a single-character separator (`"".split` gives `[""]`). -/
def splitChar (c : Char) : List Char → List (List Char)
  | [] => [[]]
  | x :: xs =>
    if x = c then [] :: splitChar c xs
    else
      match splitChar c xs with
      | [] => [[x]]
      | y :: ys => (x :: y) :: ys

/-- Numeric value of a digit character. -/
def digitVal (c : Char) : Nat := c.toNat - '0'.toNat

/-- Value of a digit string, mirroring JS `Number(...)` on an all-digit string. -/
def digitsToNat (l : List Char) : Nat := l.foldl (fun a c => a * 10 + digitVal c) 0

/-- JS `String.prototype.padStart(2, "0")` on a character list. -/
def padStart2 (l : List Char) : List Char :=
  if l.length ≥ 2 then l else List.replicate (2 - l.length) '0' ++ l

/-- JS whitespace test for the characters that occur in this code base. -/
def isWsChar (c : Char) : Bool := c.isWhitespace

/-- JS `String.prototype.trim` on a character list: strip leading and
trailing whitespace. -/
def trimChars (l : List Char) : List Char :=
  ((l.dropWhile isWsChar).reverse.dropWhile isWsChar).reverse

/-- JS `String.prototype.trim`. -/
def jsTrim (s : String) : String := String.mk (trimChars s.data)

/-- The regex `TIME_PATTERN = /^\d{2}:\d{2}(:\d{2})?$/` from `work.service.ts`. -/
def isTimePattern (l : List Char) : Bool :=
  match l with
  | [a, b, c, d, e] => a.isDigit && b.isDigit && c = ':' && d.isDigit && e.isDigit
  | [a, b, c, d, e, f, g, h] =>
    a.isDigit && b.isDigit && c = ':' && d.isDigit && e.isDigit && f = ':' &&
      g.isDigit && h.isDigit
  | _ => false

/-- Split a (pattern-matching) time value into hour/minute/second digit lists;
the missing second component defaults to `"00"`, as in
`const [hour, minute, second = "00"] = value.split(":")`. -/
def timeParts (l : List Char) : List Char × List Char × List Char :=
  let parts := splitChar ':' l
  (parts.getD 0 [], parts.getD 1 [], parts.getD 2 ['0', '0'])

/-- `WorkService.normalizeTime(value, field)` from `work.service.ts`:
pattern check against `TIME_PATTERN`, numeric range check
(hour 0–23, minute/second 0–59; the `Number.isInteger` check always passes on
digit strings, and negative values cannot arise from digits), then the
zero-padded `HH:MM:SS` string is rebuilt from the padded components. -/
def normalizeTime (value : String) (field : String) : Except AppError String :=
  if isTimePattern value.data then
    let hour := (timeParts value.data).1
    let minute := (timeParts value.data).2.1
    let second := (timeParts value.data).2.2
    if digitsToNat hour ≤ 23 && digitsToNat minute ≤ 59 && digitsToNat second ≤ 59 then
      .ok (String.mk (padStart2 hour ++ [':'] ++ padStart2 minute ++ [':'] ++ padStart2 second))
    else .error (.badRequest (field ++ " 必须为合法时间"))
  else .error (.badRequest (field ++ " 格式必须为 HH:mm 或 HH:mm:ss"))

/-- `WorkService.timeToSeconds(value)`: `h*3600 + m*60 + s` on the
colon-separated components. -/
def timeToSeconds (value : String) : Nat :=
  let parts := (splitChar ':' value.data).map digitsToNat
  parts.getD 0 0 * 3600 + parts.getD 1 0 * 60 + parts.getD 2 0

/-- Specification predicate (decidable): `value` has the two-digit shape
`HH:MM` or `HH:MM:SS` and every component is in range (hour 0–23,
minute/second 0–59). -/
def validTimeInput (value : String) : Bool :=
  isTimePattern value.data &&
    (digitsToNat (timeParts value.data).1 ≤ 23 && digitsToNat (timeParts value.data).2.1 ≤ 59 &&
      digitsToNat (timeParts value.data).2.2 ≤ 59)

/-- Specification predicate: the full normalized `HH:MM:SS` digit shape. -/
def isFullTimeShape (s : String) : Bool :=
  match s.data with
  | [a, b, c, d, e, f, g, h] =>
    a.isDigit && b.isDigit && c = ':' && d.isDigit && e.isDigit && f = ':' &&
      g.isDigit && h.isDigit
  | _ => false

/-- The regex `DATE_PATTERN = /^\d{4}-\d{2}-\d{2}$/`. -/
def isDatePattern (l : List Char) : Bool :=
  match l with
  | [y1, y2, y3, y4, s1, m1, m2, s2, d1, d2] =>
    y1.isDigit && y2.isDigit && y3.isDigit && y4.isDigit && s1 = '-' &&
      m1.isDigit && m2.isDigit && s2 = '-' && d1.isDigit && d2.isDigit
  | _ => false

/-- `WorkService.ensureDate(date)`. -/
def ensureDate (date : String) : Except AppError Unit :=
  if isDatePattern date.data then .ok () else .error (.badRequest "日期格式必须为 YYYY-MM-DD")

/-- `RecordItem` from `work.types.ts` / `mapItemRow` of the repository:
JS numbers that the service constrains to integers are modelled by `Int`,
nullable columns by `Option`. -/
structure RecordItem where
  id : Int
  record_id : Int
  item_type : Int
  status : Int
  text_value : Option String
  ref_uid : Option Int
  progress_start : Option Int
  progress_end : Option Int
  sort : Int
  created_time : String
  updated_time : String
deriving DecidableEq, Repr

/-- `WorkService.validateItem(item)`, branch for branch.  JS notes: the
`!item.text_value` truthiness test fails on both `null` and `""`; an empty
string also has empty trim, so folding it into the trim test reaches the
same error message.  `parseRequiredInt` on an `Option Int` fails exactly on
`null` (the `Number.isInteger` test always passes on an integer). -/
def validateItem (item : RecordItem) : Except AppError Unit :=
  if item.item_type = 0 then
    if ¬(item.status = 0 ∨ item.status = 2) then
      .error (.badRequest "TEXT 状态只能为 0 或 2")
    else
      match item.text_value with
      | none => .error (.badRequest "TEXT text_value 必须有值")
      | some s =>
        if jsTrim s = "" then .error (.badRequest "TEXT text_value 必须有值")
        else if item.ref_uid ≠ none ∨ item.progress_start ≠ none ∨ item.progress_end ≠ none then
          .error (.badRequest "TEXT 不允许 ref 字段")
        else .ok ()
  else if item.item_type = 1 then
    if ¬(item.status = 0 ∨ item.status = 1 ∨ item.status = 2) then
      .error (.badRequest "REF 状态只能为 0/1/2")
    else
      match item.ref_uid with
      | none => .error (.badRequest "REF ref_uid 必须有值")
      | some _ =>
        if item.text_value ≠ none then .error (.badRequest "REF 不允许 text_value")
        else
          match item.progress_start with
          | none => .error (.badRequest "progress_start 必须有值")
          | some ps =>
            match item.progress_end with
            | none => .error (.badRequest "progress_end 必须有值")
            | some pe =>
              if ps < 0 ∨ ps > 99 then .error (.badRequest "progress_start 必须在 0-99")
              else if pe < 1 ∨ pe > 100 then .error (.badRequest "progress_end 必须在 1-100")
              else if ps ≥ pe then .error (.badRequest "progress_start 必须小于 progress_end")
              else .ok ()
  else .error (.badRequest "item_type 无效")

/-- Specification predicate: the TEXT contract of §3 of the spec. -/
def validTextItem (item : RecordItem) : Prop :=
  item.item_type = 0 ∧ (item.status = 0 ∨ item.status = 2) ∧
    (∃ s, item.text_value = some s ∧ jsTrim s ≠ "") ∧
    item.ref_uid = none ∧ item.progress_start = none ∧ item.progress_end = none

/-- Specification predicate: the REF contract of §3 of the spec. -/
def validRefItem (item : RecordItem) : Prop :=
  item.item_type = 1 ∧ (item.status = 0 ∨ item.status = 1 ∨ item.status = 2) ∧
    (∃ r, item.ref_uid = some r) ∧ item.text_value = none ∧
    (∃ ps pe, item.progress_start = some ps ∧ item.progress_end = some pe ∧
      0 ≤ ps ∧ ps ≤ 99 ∧ 1 ≤ pe ∧ pe ≤ 100 ∧ ps < pe)

/-- The distinct validation messages of `validateItem`, one per violated rule. -/
def validateItemMessages : List String :=
  ["TEXT 状态只能为 0 或 2", "TEXT text_value 必须有值", "TEXT 不允许 ref 字段",
   "REF 状态只能为 0/1/2", "REF ref_uid 必须有值", "REF 不允许 text_value",
   "progress_start 必须有值", "progress_end 必须有值", "progress_start 必须在 0-99",
   "progress_end 必须在 1-100", "progress_start 必须小于 progress_end", "item_type 无效"]

/-- `UpdateItemInput` from `work.types.ts`: the outer `Option` is
"field absent from the request" (`undefined`), the inner `Option` on the
nullable fields is an explicit `null`. -/
structure UpdateItemInput where
  status : Option Int
  text_value : Option (Option String)
  ref_uid : Option (Option Int)
  progress_start : Option (Option Int)
  progress_end : Option (Option Int)
  sort : Option Int
deriving DecidableEq, Repr

/-- The merge step of `WorkService.updateItem`: `input.status ?? item.status`,
`input.x !== undefined ? input.x : item.x` for the nullable fields, and
`parseOptionalInt(input.sort, item.sort)` (identity on a present integer,
fallback when absent); `id`, `record_id`, `item_type`, `created_time` are
taken from the stored item by the spread. -/
def mergeUpdateItem (item : RecordItem) (input : UpdateItemInput) (now : String) : RecordItem :=
  { item with
    status := input.status.getD item.status
    text_value := input.text_value.getD item.text_value
    ref_uid := input.ref_uid.getD item.ref_uid
    progress_start := input.progress_start.getD item.progress_start
    progress_end := input.progress_end.getD item.progress_end
    sort := input.sort.getD item.sort
    updated_time := now }

/-- `WorkService.updateItem(itemId, input)` against a stored item list:
`findItemById`, `NotFoundException` when absent, merge, re-validate the
merged item, return it.  (`parseRequiredInt(itemId)` always passes on an
`Int`; persistence and the change notification carry no further data.) -/
def updateItem (items : List RecordItem) (itemId : Int) (input : UpdateItemInput)
    (now : String) : Except AppError RecordItem :=
  match items.find? (fun it => it.id == itemId) with
  | none => .error (.notFound "记录项不存在")
  | some item =>
    match validateItem (mergeUpdateItem item input now) with
    | .error e => .error e
    | .ok _ => .ok (mergeUpdateItem item input now)

/-- `WorkSlot` from `work.types.ts` / `mapSlotRow`. -/
structure WorkSlot where
  id : Int
  work_date : String
  start_time : String
  end_time : String
  sort : Int
  created_time : String
  updated_time : String
deriving DecidableEq, Repr

/-- `TimeSlotInput` from `work.types.ts` (`sort` optional). -/
structure TimeSlotInput where
  start_time : String
  end_time : String
  sort : Option Int
deriving DecidableEq, Repr

/-- `DailyRecord` row (`items` are stored separately in the item table). -/
structure DailyRecord where
  id : Int
  work_date : String
  created_time : String
  updated_time : String
deriving DecidableEq, Repr

/-- The repository state behind `WorkRepository`: the three MySQL tables and
their auto-increment counters. -/
structure WorkDb where
  records : List DailyRecord
  items : List RecordItem
  slots : List WorkSlot
  nextRecordId : Int
  nextItemId : Int
  nextSlotId : Int
deriving DecidableEq, Repr

/-- Auto-increment id assignment for a bulk slot `INSERT`. -/
def assignSlotIds (startId : Int) : List WorkSlot → List WorkSlot
  | [] => []
  | s :: rest => { s with id := startId } :: assignSlotIds (startId + 1) rest

/-- `MySqlWorkRepository.replaceSlots(date, slots)`: one transaction deleting
every slot of `date` and bulk-inserting the new ones. -/
def replaceSlots (db : WorkDb) (date : String) (ns : List WorkSlot) : WorkDb :=
  { db with
    slots := db.slots.filter (fun s => s.work_date != date) ++ assignSlotIds db.nextSlotId ns
    nextSlotId := db.nextSlotId + ns.length }

/-- `ORDER BY sort ASC, id ASC` of the slot queries. -/
def slotLe (a b : WorkSlot) : Prop := a.sort < b.sort ∨ (a.sort = b.sort ∧ a.id ≤ b.id)

instance : DecidableRel slotLe := fun a b => by unfold slotLe; infer_instance

/-- `MySqlWorkRepository.getSlotsByDate(date)`. -/
def getSlotsByDate (db : WorkDb) (date : String) : List WorkSlot :=
  List.insertionSort slotLe (db.slots.filter (fun s => s.work_date == date))

/-- The per-slot body of the `slots.map` in `WorkService.saveSlots`:
normalize both bounds, reject `start >= end` (in seconds), fall back to the
array index for a missing `sort` (`parseOptionalInt`).  The JS `map` throws
out of the whole loop at the first bad slot. -/
def normalizeSlotList (date now : String) : List TimeSlotInput → Nat → Except AppError (List WorkSlot)
  | [], _ => .ok []
  | slot :: rest, index =>
    match normalizeTime slot.start_time "start_time" with
    | .error e => .error e
    | .ok start =>
      match normalizeTime slot.end_time "end_time" with
      | .error e => .error e
      | .ok stop =>
        if timeToSeconds start ≥ timeToSeconds stop then
          .error (.badRequest "start_time 必须早于 end_time")
        else
          match normalizeSlotList date now rest (index + 1) with
          | .error e => .error e
          | .ok tail =>
            .ok ({ id := 0, work_date := date, start_time := start, end_time := stop,
                   sort := slot.sort.getD index, created_time := now,
                   updated_time := now } :: tail)

/-- `WorkService.saveSlots(date, slots)`: date check, per-slot validation,
transactional replacement, then re-read of the persisted sorted list. -/
def saveSlots (db : WorkDb) (date : String) (slots : List TimeSlotInput) (now : String) :
    Except AppError (WorkDb × List WorkSlot) :=
  match ensureDate date with
  | .error e => .error e
  | .ok _ =>
    match normalizeSlotList date now slots 0 with
    | .error e => .error e
    | .ok ns =>
      let db2 := replaceSlots db date ns
      .ok (db2, getSlotsByDate db2 date)

/-- `BatchCreateDay` from `work.types.ts`. -/
structure BatchCreateDay where
  date : String
  items : List String
deriving DecidableEq, Repr

/-- `WorkService.ensureRecord(date)`: find the record for the date or create
it (`createRecord` assigns the next auto-increment id). -/
def ensureRecord (db : WorkDb) (date : String) (now : String) : DailyRecord × WorkDb :=
  match db.records.find? (fun r => r.work_date == date) with
  | some r => (r, db)
  | none =>
    let record : DailyRecord :=
      { id := db.nextRecordId, work_date := date, created_time := now, updated_time := now }
    (record, { db with records := db.records ++ [record], nextRecordId := db.nextRecordId + 1 })

/-- `MySqlWorkRepository.getNextItemSort(recordId)`:
`MAX(sort)` over the record's items, `+1`, or `0` when the record has none. -/
def getNextItemSort (db : WorkDb) (recordId : Int) : Int :=
  match (db.items.filter (fun it => it.record_id == recordId)).map (fun it => it.sort) with
  | [] => 0
  | x :: xs => xs.foldl max x + 1

/-- `MySqlWorkRepository.insertItem`: append with the next auto-increment id. -/
def insertItem (db : WorkDb) (item : RecordItem) : WorkDb :=
  { db with
    items := db.items ++ [{ item with id := db.nextItemId }]
    nextItemId := db.nextItemId + 1 }

/-- The TEXT/DONE item built for each batch string in
`WorkService.createItemsBatch`. -/
def batchItem (recordId sortVal : Int) (text now : String) : RecordItem :=
  { id := 0, record_id := recordId, item_type := 0, status := 2, text_value := some text,
    ref_uid := none, progress_start := none, progress_end := none, sort := sortVal,
    created_time := now, updated_time := now }

/-- The inner `for (const text of items)` loop of `createItemsBatch`:
validate and insert one TEXT/DONE item per string with sequential sorts. -/
def insertBatchItems (db : WorkDb) (recordId sortVal : Int) (texts : List String)
    (now : String) : Except AppError WorkDb :=
  match texts with
  | [] => .ok db
  | t :: rest =>
    match validateItem (batchItem recordId sortVal t now) with
    | .error e => .error e
    | .ok _ =>
      insertBatchItems (insertItem db (batchItem recordId sortVal t now)) recordId
        (sortVal + 1) rest now

/-- `updateRecordUpdatedTime` on the record list. -/
def touchRecord (db : WorkDb) (recordId : Int) (now : String) : WorkDb :=
  { db with
    records := db.records.map (fun r => if r.id == recordId then { r with updated_time := now } else r) }

/-- One `for (const day of input.days)` iteration of `createItemsBatch`:
date check, trim every string, reject any blank (`items 不能为空` — note the
check is `items.some(len === 0)`, vacuously false on an empty array),
ensure the record, insert the items from the next available sort, refresh
the record timestamp when at least one item was written.  Returns the new
state and the day's count. -/
def processBatchDay (db : WorkDb) (day : BatchCreateDay) (now : String) :
    Except AppError (WorkDb × Nat) :=
  match ensureDate day.date with
  | .error e => .error e
  | .ok _ =>
    let texts := day.items.map jsTrim
    if texts.any (fun t => t.length = 0) then .error (.badRequest "items 不能为空")
    else
      let rdb := ensureRecord db day.date now
      match insertBatchItems rdb.2 rdb.1.id (getNextItemSort rdb.2 rdb.1.id) texts now with
      | .error e => .error e
      | .ok db2 =>
        let db3 := if texts.length > 0 then touchRecord db2 rdb.1.id now else db2
        .ok (db3, texts.length)

/-- The day loop of `createItemsBatch`, also accumulating the per-day
summaries, the running total and the dates for which a
`batch_create_items` change notification is emitted (`count > 0`). -/
def batchLoop (db : WorkDb) (days : List BatchCreateDay) (now : String) :
    Except AppError (WorkDb × List (String × Nat) × Nat × List String) :=
  match days with
  | [] => .ok (db, [], 0, [])
  | day :: rest =>
    match processBatchDay db day now with
    | .error e => .error e
    | .ok (db1, count) =>
      match batchLoop db1 rest now with
      | .error e => .error e
      | .ok (db2, summaries, total, events) =>
        .ok (db2, (day.date, count) :: summaries, count + total,
          (if count > 0 then [day.date] else []) ++ events)

/-- `WorkService.createItemsBatch(input)`: requires a non-empty `days` array,
then runs the uncaught per-day loop. -/
def createItemsBatch (db : WorkDb) (days : List BatchCreateDay) (now : String) :
    Except AppError (WorkDb × List (String × Nat) × Nat × List String) :=
  if days.isEmpty then .error (.badRequest "days 必须为非空数组")
  else batchLoop db days now

/-- `NormalizedWorkDay` from `work.types.ts` / the MCP `NormalizedDays` entry. -/
structure NormalizedWorkDay where
  date : String
  items : List String
deriving DecidableEq, Repr

/-- The post-processing tail of `WorkService.normalizeWork` (after the model
response has been parsed): keep only the entry whose `date` equals the
selected base date, with an empty `items` array when the model produced no
such entry.  The items of the matched entry are passed through as-is. -/
def normalizeWorkPost (days : List NormalizedWorkDay) (baseDate : String) :
    List NormalizedWorkDay :=
  match days.find? (fun day => day.date == baseDate) with
  | some matched => [{ date := baseDate, items := matched.items }]
  | none => [{ date := baseDate, items := [] }]

/-- The shape of a `mysql2` error as far as `isRetryableLockError` inspects
it (`code` and `errno` are both optional on a JS error object). -/
structure DbError where
  code : Option String
  errno : Option Int
deriving DecidableEq, Repr

/-- `MySqlWorkRepository.isRetryableLockError(error)`: lock deadlock
(`ER_LOCK_DEADLOCK`/1213) or lock wait timeout (`ER_LOCK_WAIT_TIMEOUT`/1205).
(The `!dbError` null guard of the JS code concerns only a thrown `null`,
which cannot arise from the transaction helper.) -/
def isRetryableLockError (e : DbError) : Bool :=
  e.code == some "ER_LOCK_DEADLOCK" || e.errno == some 1213 ||
    e.code == some "ER_LOCK_WAIT_TIMEOUT" || e.errno == some 1205

/-- The retry loop of `MySqlWorkRepository.replaceHolidayDaysByYear`:
`maxAttempts = 3`; the delete-then-insert transaction of attempt `n`
(1-based) is modelled by the oracle `attemptResult n`.  Gives the final
outcome together with the list of `sleep` delays taken between attempts
(`attempt * 40` ms).  A non-retryable error, or any error on the last
attempt, is re-thrown at once. -/
def holidayRetryLoop (attemptResult : Nat → Except DbError Unit) (attempt : Nat) :
    Except DbError Unit × List Nat :=
  match attemptResult attempt with
  | .ok _ => (.ok (), [])
  | .error e =>
    if h : ¬ isRetryableLockError e = true ∨ 3 ≤ attempt then (.error e, [])
    else
      let next := holidayRetryLoop attemptResult (attempt + 1)
      (next.1, attempt * 40 :: next.2)
termination_by 3 - attempt
decreasing_by
  push_neg at h
  omega

/-- `MySqlWorkRepository.replaceHolidayDaysByYear` as the retry wrapper
around the transaction oracle (the loop starts at attempt 1). -/
def replaceHolidayDaysByYear (attemptResult : Nat → Except DbError Unit) :
    Except DbError Unit × List Nat :=
  holidayRetryLoop attemptResult 1

/-- Insertion-ordered bucket update, mirroring a JS `Map` in which
`set` on a present key keeps its position and a new key is appended:
`bucket.get(k) ?? []` extended with `v`. -/
def bucketAdd {α : Type} (b : List (String × List α)) (k : String) (v : List α) :
    List (String × List α) :=
  match b with
  | [] => [(k, v)]
  | (k', v') :: rest => if k' = k then (k', v' ++ v) :: rest else (k', v') :: bucketAdd rest k v

/-- JS `Map.get`. -/
def assocLookup {α : Type} (b : List (String × List α)) (k : String) : Option (List α) :=
  match b with
  | [] => none
  | (k', v') :: rest => if k' = k then some v' else assocLookup rest k

/-- One iteration of the bucket-building loop of `normalizeDaysPayload` in
`worktime-mcp.ts`: skip an entry whose date fails the pattern, trim its
items, drop blanks, skip it when the cleaned item list is empty, else merge
it into the bucket by date. -/
def dayStep (b : List (String × List String)) (day : NormalizedWorkDay) :
    List (String × List String) :=
  if ¬ isDatePattern day.date.data then b
  else
    let items := (day.items.map jsTrim).filter (fun s => s.length > 0)
    if items.isEmpty then b
    else bucketAdd b day.date items

/-- The bucket-building loop of `normalizeDaysPayload`. -/
def buildDaysBucket (days : List NormalizedWorkDay) : List (String × List String) :=
  days.foldl dayStep []

/-- Specification predicate: a bucket pair with a pattern-valid date and a
non-empty list of already-trimmed, non-blank items. -/
def cleanPair (e : String × List String) : Prop :=
  isDatePattern e.1.data = true ∧ e.2 ≠ [] ∧ ∀ s ∈ e.2, jsTrim s = s ∧ s.length > 0

/-- Specification predicate: a normalized day entry with a pattern-valid
date and a non-empty list of already-trimmed, non-blank items. -/
def cleanEntry (e : NormalizedWorkDay) : Prop :=
  isDatePattern e.date.data = true ∧ e.items ≠ [] ∧ ∀ s ∈ e.items, jsTrim s = s ∧ s.length > 0

/-- Date order on normalized day entries (`a.date.localeCompare(b.date)`). -/
def ndayLe (a b : NormalizedWorkDay) : Prop := a.date ≤ b.date

instance : DecidableRel ndayLe := fun a b => by unfold ndayLe; infer_instance

instance : IsTotal NormalizedWorkDay ndayLe := ⟨fun a b => le_total a.date b.date⟩

instance : IsTrans NormalizedWorkDay ndayLe := ⟨fun _ _ _ h1 h2 => le_trans h1 h2⟩

/-- `normalizeDaysPayload(input, fallbackDate)` from `worktime-mcp.ts`:
bucket/merge per date, fall back to a single empty entry for the fallback
date when nothing survives, else sort the surviving entries by date. -/
def normalizeDaysPayload (input : List NormalizedWorkDay) (fallbackDate : String) :
    List NormalizedWorkDay :=
  let bucket := buildDaysBucket input
  if bucket.isEmpty then [{ date := fallbackDate, items := [] }]
  else
    List.insertionSort ndayLe
      (bucket.map (fun e => { date := e.1, items := e.2 : NormalizedWorkDay }))

/-- Days since the Unix epoch of a proleptic-Gregorian civil date, the
arithmetic JS `Date` performs for `new Date("YYYY-MM-DDT00:00:00")` plus
`getTime`-level day arithmetic (floor divisions throughout). -/
def daysFromCivil (y m d : Int) : Int :=
  let y1 := if m ≤ 2 then y - 1 else y
  let era := y1.fdiv 400
  let yoe := y1 - era * 400
  let mp := if m > 2 then m - 3 else m + 9
  let doy := (153 * mp + 2).fdiv 5 + d - 1
  let doe := yoe * 365 + yoe.fdiv 4 - yoe.fdiv 100 + doy
  era * 146097 + doe - 719468

/-- Civil date from days since the Unix epoch (inverse direction of the same
JS `Date` arithmetic). -/
def civilFromDays (z : Int) : Int × Int × Int :=
  let z1 := z + 719468
  let era := z1.fdiv 146097
  let doe := z1 - era * 146097
  let yoe := (doe - doe.fdiv 1460 + doe.fdiv 36524 - doe.fdiv 146096).fdiv 365
  let y := yoe + era * 400
  let doy := doe - (365 * yoe + yoe.fdiv 4 - yoe.fdiv 100)
  let mp := (5 * doy + 2).fdiv 153
  let d := doy - (153 * mp + 2).fdiv 5 + 1
  let m := if mp < 10 then mp + 3 else mp - 9
  (if m ≤ 2 then y + 1 else y, m, d)

/-- JS `Date.prototype.getDay` on an epoch day number (1970-01-01 was a
Thursday, `getDay() = 4`; Sunday is `0`, Monday is `1`). -/
def dowJs (z : Int) : Int := (z + 4) % 7

/-- Leap-year rule of the Gregorian calendar (used by the `Date` model for
day-of-month validity). -/
def isLeapYear (y : Int) : Bool := (y.emod 4 == 0 && y.emod 100 != 0) || y.emod 400 == 0

/-- Days in a month of the Gregorian calendar. -/
def daysInMonth (y m : Int) : Int :=
  if m = 2 then (if isLeapYear y then 29 else 28)
  else if m = 4 ∨ m = 6 ∨ m = 9 ∨ m = 11 then 30
  else 31

/-- Parse a `YYYY-MM-DD` string the way `new Date(s + "T00:00:00")` accepts
it: shape plus month and day-of-month in range (anything else is an
`Invalid Date`). -/
def parseDateString (s : String) : Option (Int × Int × Int) :=
  if isDatePattern s.data then
    let parts := splitChar '-' s.data
    let y : Int := digitsToNat (parts.getD 0 [])
    let m : Int := digitsToNat (parts.getD 1 [])
    let d : Int := digitsToNat (parts.getD 2 [])
    if 1 ≤ m ∧ m ≤ 12 ∧ 1 ≤ d ∧ d ≤ daysInMonth y m then some (y, m, d) else none
  else none

/-- `WorkService.formatLocalDate(date)`: unpadded year, two-digit padded
month and day. -/
def formatCivilDate (y m d : Int) : String :=
  String.mk ((Nat.repr y.toNat).data ++ ['-'] ++ padStart2 (Nat.repr m.toNat).data ++
    ['-'] ++ padStart2 (Nat.repr d.toNat).data)

/-- The epoch-day form of `getWeekStart`'s
`offset = (day + 6) % 7; date.setDate(date.getDate() - offset)`. -/
def weekStartEpoch (z : Int) : Int := z - (dowJs z + 6) % 7

/-- `WorkService.getWeekStart(dateStr)`: parse, step back to the ISO week
start (Monday), format.  An unparseable date yields the JS `NaN` rendering
of `formatLocalDate` on an invalid `Date`. -/
def getWeekStart (s : String) : String :=
  match parseDateString s with
  | none => "NaN-NaN-NaN"
  | some (y, m, d) =>
    let c := civilFromDays (weekStartEpoch (daysFromCivil y m d))
    formatCivilDate c.1 c.2.1 c.2.2

/-- One entry of the monthly report's internal `dayList`. -/
structure ReportDay where
  date : String
  timeSlots : List WorkSlot
  items : List String
  hours : Rat
deriving DecidableEq, Repr

/-- One entry of the monthly report's `weeks` output. -/
structure ReportWeek where
  startDate : String
  endDate : String
  hours : Rat
  days : List ReportDay
deriving DecidableEq, Repr

/-- Date order on report days (`a.date.localeCompare(b.date)`). -/
def dayLe (a b : ReportDay) : Prop := a.date ≤ b.date

instance : DecidableRel dayLe := fun a b => by unfold dayLe; infer_instance

instance : IsTotal ReportDay dayLe := ⟨fun a b => le_total a.date b.date⟩

instance : IsTrans ReportDay dayLe := ⟨fun _ _ _ h1 h2 => le_trans h1 h2⟩

/-- Codepoint order on strings (JS default array sort / `localeCompare` on
ASCII date keys). -/
def strLe (a b : String) : Prop := a ≤ b

instance : DecidableRel strLe := fun a b => by unfold strLe; infer_instance

instance : IsTotal String strLe := ⟨fun a b => le_total a b⟩

instance : IsTrans String strLe := ⟨fun _ _ _ h1 h2 => le_trans h1 h2⟩

/-- One iteration of the grouping loop of `groupByWeek`: push the day onto
its week's bucket (`groups.get(weekStart) ?? []`, `push`, `set`). -/
def weekStep (g : List (String × List ReportDay)) (d : ReportDay) :
    List (String × List ReportDay) :=
  bucketAdd g (getWeekStart d.date) [d]

/-- `WorkService.groupByWeek(days)`: insertion-ordered grouping by
`getWeekStart`, sorted week keys, per-week date-sorted day lists, week
bounds from the first/last member (`?? key` only for an empty list), week
hours as the sum of the members. -/
def groupByWeek (days : List ReportDay) : List ReportWeek :=
  let groups := days.foldl weekStep []
  let weekKeys := List.insertionSort strLe (groups.map (fun e => e.1))
  weekKeys.map (fun key =>
    let list := List.insertionSort dayLe ((assocLookup groups key).getD [])
    { startDate := ((list.head?).map (fun d => d.date)).getD key
      endDate := ((list.getLast?).map (fun d => d.date)).getD key
      hours := list.foldl (fun sum d => sum + d.hours) 0
      days := list })

/-- `WorkService.computeSlotsHours(slots)` (exact rationals stand in for the
JS floats; every value in range is a small dyadic/decimal number). -/
def computeSlotsHours (slots : List WorkSlot) : Rat :=
  slots.foldl
    (fun sum slot =>
      let startSeconds := timeToSeconds slot.start_time
      let endSeconds := timeToSeconds slot.end_time
      if endSeconds ≤ startSeconds then sum
      else sum + ((endSeconds : Rat) - (startSeconds : Rat)) / 3600)
    0

/-- JS `Math.round` (half toward positive infinity). -/
def jsRound (x : Rat) : Int := ⌊x + 1 / 2⌋

/-- `WorkService.roundHours(value)`: `Math.round(value * 100) / 100`. -/
def roundHours (value : Rat) : Rat := (jsRound (value * 100) : Rat) / 100

/-- The `FALLBACK_DEFAULT_SLOTS` constant materialized for a date. -/
def fallbackDefaultSlots (date : String) : List WorkSlot :=
  [{ id := 0, work_date := date, start_time := "09:30:00", end_time := "12:00:00", sort := 0,
     created_time := "", updated_time := "" },
   { id := 0, work_date := date, start_time := "13:30:00", end_time := "19:00:00", sort := 1,
     created_time := "", updated_time := "" }]

/-- `WorkService.resolveDefaultSlots(date)`, parameterized by the configured
`work.defaultSlots` (start/end string pairs, an external runtime input):
normalize each pair, drop pairs that fail or are not strictly increasing,
fall back to `FALLBACK_DEFAULT_SLOTS` when none survives. -/
def resolveDefaultSlots (configSlots : List (String × String)) (date : String) : List WorkSlot :=
  let normalized := (configSlots.enum).filterMap (fun e =>
    match normalizeTime e.2.1 "work.defaultSlots.start",
        normalizeTime e.2.2 "work.defaultSlots.end" with
    | .ok start, .ok stop =>
      if timeToSeconds start ≥ timeToSeconds stop then none
      else some { id := 0, work_date := date, start_time := start, end_time := stop,
                  sort := (e.1 : Int), created_time := "", updated_time := "" : WorkSlot }
    | _, _ => none)
  if normalized.length > 0 then normalized else fallbackDefaultSlots date

/-- Slot order of `WorkService.sortSlots` (`(a, b) => a.sort - b.sort`;
JS `sort` is stable, as is `insertionSort`). -/
def slotSortLe (a b : WorkSlot) : Prop := a.sort ≤ b.sort

instance : DecidableRel slotSortLe := fun a b => by unfold slotSortLe; infer_instance

/-- JS truthiness of a nullable string (`item.text_value` in the report
filter): `null` and `""` are falsy. -/
def textTruthy : Option String → Bool
  | none => false
  | some s => s != ""

/-- First-occurrence deduplication in insertion order (a JS `Set` filled by
iteration). -/
def dedupFirst (l : List String) : List String :=
  l.foldl (fun acc d => if d ∈ acc then acc else acc ++ [d]) []

/-- The per-date text-item computation of `getMonthReport`: the trimmed
non-empty texts of the date's TEXT items (REF items excluded, JS-truthy
`text_value` only).  `recordByDate` is a `Map` filled in list order, so a
later duplicate date would win — hence the reversed `find?`. -/
def reportTextItems (records : List DailyRecord) (items : List RecordItem)
    (date : String) : List String :=
  match records.reverse.find? (fun r => r.work_date == date) with
  | none => []
  | some rec =>
    (((items.filter (fun it => it.record_id == rec.id)).filter
        (fun it => it.item_type == 0 && textTruthy it.text_value)).map
      (fun it => jsTrim (it.text_value.getD ""))).filter (fun t => t.length > 0)

/-- One day entry of `getMonthReport`'s `dayList` before the non-empty
filter: texts, persisted slots sorted by `sort` (or the resolved defaults),
and the hours sum. -/
def reportDayFor (records : List DailyRecord) (items : List RecordItem)
    (slots : List WorkSlot) (configSlots : List (String × String)) (date : String) : ReportDay :=
  let daySlots := slots.filter (fun s => s.work_date == date)
  let normalizedSlots :=
    if daySlots.length > 0 then List.insertionSort slotSortLe daySlots
    else resolveDefaultSlots configSlots date
  { date := date, timeSlots := normalizedSlots, items := reportTextItems records items date,
    hours := computeSlotsHours normalizedSlots }

/-- The sorted, deduplicated set of dates `getMonthReport` visits: dates of
records and of slots. -/
def monthReportDates (records : List DailyRecord) (slots : List WorkSlot) : List String :=
  List.insertionSort strLe
    (dedupFirst (records.map (fun r => r.work_date) ++ slots.map (fun s => s.work_date)))

/-- The `dayList` of `WorkService.getMonthReport(month)` given the rows the
repository returned for the month range; days with zero text items are
dropped by the final filter. -/
def monthReportDayList (records : List DailyRecord) (items : List RecordItem)
    (slots : List WorkSlot) (configSlots : List (String × String)) : List ReportDay :=
  ((monthReportDates records slots).map
    (reportDayFor records items slots configSlots)).filter
    (fun day => day.items.length > 0)

/-- The `weeks` output of `getMonthReport`: grouped day list with rounded
hours on each day and each week. -/
def monthReportWeeks (records : List DailyRecord) (items : List RecordItem)
    (slots : List WorkSlot) (configSlots : List (String × String)) : List ReportWeek :=
  (groupByWeek (monthReportDayList records items slots configSlots)).map
    (fun week =>
      { week with
        hours := roundHours week.hours
        days := week.days.map (fun day => { day with hours := roundHours day.hours }) })

/-- Specification predicate: the frame/merge behavior of an update — fields
absent from the input keep their prior value, provided fields (including an
explicit `null` for the nullable fields) take the provided value, and `id`,
`record_id`, `item_type`, `created_time` never change. -/
def updateFrame (item merged : RecordItem) (input : UpdateItemInput) : Prop :=
  merged.id = item.id ∧ merged.record_id = item.record_id ∧
  merged.item_type = item.item_type ∧ merged.created_time = item.created_time ∧
  (input.status = none → merged.status = item.status) ∧
  (∀ v, input.status = some v → merged.status = v) ∧
  (input.text_value = none → merged.text_value = item.text_value) ∧
  (∀ v, input.text_value = some v → merged.text_value = v) ∧
  (input.ref_uid = none → merged.ref_uid = item.ref_uid) ∧
  (∀ v, input.ref_uid = some v → merged.ref_uid = v) ∧
  (input.progress_start = none → merged.progress_start = item.progress_start) ∧
  (∀ v, input.progress_start = some v → merged.progress_start = v) ∧
  (input.progress_end = none → merged.progress_end = item.progress_end) ∧
  (∀ v, input.progress_end = some v → merged.progress_end = v) ∧
  (input.sort = none → merged.sort = item.sort) ∧
  (∀ v, input.sort = some v → merged.sort = v)

/-- A valid TEXT item used to instantiate the validation contract. -/
def sampleTextItem : RecordItem :=
  { id := 1, record_id := 1, item_type := 0, status := 2, text_value := some "done",
    ref_uid := none, progress_start := none, progress_end := none, sort := 0,
    created_time := "", updated_time := "" }

/-- A partial update input (status and text provided, the rest absent). -/
def sampleUpdateInput : UpdateItemInput :=
  { status := some 0, text_value := some (some "revised"), ref_uid := none,
    progress_start := none, progress_end := none, sort := none }

/-- A MySQL deadlock error (`ER_LOCK_DEADLOCK`, errno 1213). -/
def deadlockError : DbError := { code := some "ER_LOCK_DEADLOCK", errno := some 1213 }

/-- A non-retryable MySQL error (`ER_DUP_ENTRY`, errno 1062). -/
def plainError : DbError := { code := some "ER_DUP_ENTRY", errno := some 1062 }

/-- An empty repository state (auto-increment counters at 1). -/
def emptyDb : WorkDb :=
  { records := [], items := [], slots := [], nextRecordId := 1, nextItemId := 1, nextSlotId := 1 }

/-- The two raw slots of the spec scenario
`saveSlots("2026-02-02", [08:00–10:00, 10:30–12:00])`. -/
def sampleSlotInputs : List TimeSlotInput :=
  [{ start_time := "08:00", end_time := "10:00", sort := none },
   { start_time := "10:30", end_time := "12:00", sort := none }]

/-- The normalized form of `sampleSlotInputs` for date `2026-02-02`. -/
def sampleNormalizedSlots : List WorkSlot :=
  [{ id := 0, work_date := "2026-02-02", start_time := "08:00:00", end_time := "10:00:00",
     sort := 0, created_time := "t", updated_time := "t" },
   { id := 0, work_date := "2026-02-02", start_time := "10:30:00", end_time := "12:00:00",
     sort := 1, created_time := "t", updated_time := "t" }]

/-- Specification list: the items the batch loop appends for one day — one
TEXT/DONE item per string with sequential sorts from `base` and sequential
auto-increment ids from `nid`. -/
def batchInserted (rid base nid : Int) (texts : List String) (now : String) : List RecordItem :=
  match texts with
  | [] => []
  | t :: rest => { batchItem rid base t now with id := nid } ::
      batchInserted rid (base + 1) (nid + 1) rest now

/-- The repository state after a batch with one valid date and an empty
items array: the day's record was created, no items, no event. -/
def dbAfterEmptyBatchDay : WorkDb :=
  { records := [{ id := 1, work_date := "2026-02-02", created_time := "t", updated_time := "t" }],
    items := [], slots := [], nextRecordId := 2, nextItemId := 1, nextSlotId := 1 }

/-- Two days in different ISO weeks of February 2026. -/
def sampleReportDays : List ReportDay :=
  [{ date := "2026-02-10", timeSlots := [], items := ["a"], hours := 0 },
   { date := "2026-02-03", timeSlots := [], items := ["b"], hours := 0 }]

/-- Two records: one day with a TEXT item, one day with only a REF item. -/
def sampleReportRecords : List DailyRecord :=
  [{ id := 1, work_date := "2026-02-03", created_time := "", updated_time := "" },
   { id := 2, work_date := "2026-02-04", created_time := "", updated_time := "" }]

/-- A TEXT item on record 1 and a REF item on record 2. -/
def sampleReportItems : List RecordItem :=
  [{ id := 10, record_id := 1, item_type := 0, status := 2, text_value := some "done",
     ref_uid := none, progress_start := none, progress_end := none, sort := 0,
     created_time := "", updated_time := "" },
   { id := 11, record_id := 2, item_type := 1, status := 1, text_value := none,
     ref_uid := some 1001, progress_start := some 10, progress_end := some 40, sort := 0,
     created_time := "", updated_time := "" }]

/-! ## Theorems -/

theorem digit_ne_colon {a : Char} (h : a.isDigit = true) : a ≠ ':' := by
  intro he
  subst he
  simp [Char.isDigit] at h

theorem isTimePattern_shapes {l : List Char} (h : isTimePattern l = true) :
    (∃ a b d e, (a.isDigit ∧ b.isDigit ∧ d.isDigit ∧ e.isDigit : Bool) = true ∧
      l = [a, b, ':', d, e]) ∨
    (∃ a b d e g k,
      (a.isDigit ∧ b.isDigit ∧ d.isDigit ∧ e.isDigit ∧ g.isDigit ∧ k.isDigit : Bool) = true ∧
      l = [a, b, ':', d, e, ':', g, k]) := by
  unfold isTimePattern at h
  split at h
  · next a b c d e =>
    left
    simp only [Bool.and_eq_true, decide_eq_true_eq] at h
    obtain ⟨⟨⟨⟨ha, hb⟩, hc⟩, hd⟩, he⟩ := h
    exact ⟨a, b, d, e, by simp [ha, hb, hd, he], by rw [hc]⟩
  · next a b c d e f g k =>
    right
    simp only [Bool.and_eq_true, decide_eq_true_eq] at h
    obtain ⟨⟨⟨⟨⟨⟨⟨ha, hb⟩, hc⟩, hd⟩, he⟩, hf⟩, hg⟩, hk⟩ := h
    exact ⟨a, b, d, e, g, k, by simp [ha, hb, hd, he, hg, hk], by rw [hc, hf]⟩
  · exact absurd h (by simp)

theorem timeParts_five {a b d e : Char} (ha : a.isDigit = true) (hb : b.isDigit = true)
    (hd : d.isDigit = true) (he : e.isDigit = true) :
    timeParts [a, b, ':', d, e] = ([a, b], [d, e], ['0', '0']) := by
  simp [timeParts, splitChar, digit_ne_colon ha, digit_ne_colon hb, digit_ne_colon hd,
    digit_ne_colon he]

theorem timeParts_eight {a b d e g k : Char} (ha : a.isDigit = true) (hb : b.isDigit = true)
    (hd : d.isDigit = true) (he : e.isDigit = true) (hg : g.isDigit = true)
    (hk : k.isDigit = true) :
    timeParts [a, b, ':', d, e, ':', g, k] = ([a, b], [d, e], [g, k]) := by
  simp [timeParts, splitChar, digit_ne_colon ha, digit_ne_colon hb, digit_ne_colon hd,
    digit_ne_colon he, digit_ne_colon hg, digit_ne_colon hk]

theorem padStart2_pair (a b : Char) : padStart2 [a, b] = [a, b] := by
  simp [padStart2]

theorem normalizeTime_ok_iff (s f : String) :
    (∃ t, normalizeTime s f = .ok t) ↔ validTimeInput s = true := by
  unfold normalizeTime validTimeInput
  cases hp : isTimePattern s.data
  · simp
  · simp only [if_true, Bool.true_and]
    by_cases hr : (digitsToNat (timeParts s.data).1 ≤ 23 &&
        digitsToNat (timeParts s.data).2.1 ≤ 59 && digitsToNat (timeParts s.data).2.2 ≤ 59) = true
    · simp [hr]
    · simp [hr]

theorem normalizeTime_mk_five {a b d e : Char} (f : String)
    (ha : a.isDigit = true) (hb : b.isDigit = true) (hd : d.isDigit = true)
    (he : e.isDigit = true)
    (h1 : digitsToNat [a, b] ≤ 23) (h2 : digitsToNat [d, e] ≤ 59) :
    normalizeTime (String.mk [a, b, ':', d, e]) f =
      .ok (String.mk [a, b, ':', d, e, ':', '0', '0']) := by
  have hp : isTimePattern [a, b, ':', d, e] = true := by
    simp [isTimePattern, ha, hb, hd, he]
  have h3 : digitsToNat ['0', '0'] ≤ 59 := by decide
  simp [normalizeTime, hp, timeParts_five ha hb hd he, padStart2_pair, h1, h2, h3]

theorem normalizeTime_mk_eight {a b d e g k : Char} (f : String)
    (ha : a.isDigit = true) (hb : b.isDigit = true) (hd : d.isDigit = true)
    (he : e.isDigit = true) (hg : g.isDigit = true) (hk : k.isDigit = true)
    (h1 : digitsToNat [a, b] ≤ 23) (h2 : digitsToNat [d, e] ≤ 59)
    (h3 : digitsToNat [g, k] ≤ 59) :
    normalizeTime (String.mk [a, b, ':', d, e, ':', g, k]) f =
      .ok (String.mk [a, b, ':', d, e, ':', g, k]) := by
  have hp : isTimePattern [a, b, ':', d, e, ':', g, k] = true := by
    simp [isTimePattern, ha, hb, hd, he, hg, hk]
  simp [normalizeTime, hp, timeParts_eight ha hb hd he hg hk, padStart2_pair, h1, h2, h3]

theorem normalizeTime_ok_imp {s f t : String} (h : normalizeTime s f = .ok t) :
    isFullTimeShape t = true ∧ normalizeTime t f = .ok t := by
  cases s with
  | mk l =>
  have hp : isTimePattern l = true := by
    by_contra hc
    simp only [Bool.not_eq_true] at hc
    simp [normalizeTime, hc] at h
  rcases isTimePattern_shapes hp with ⟨a, b, d, e, hdig, hl⟩ | ⟨a, b, d, e, g, k, hdig, hl⟩
  · simp only [Bool.and_eq_true, decide_eq_true_eq] at hdig
    obtain ⟨ha, hb, hd, he⟩ := hdig
    cases hl
    by_cases h1 : digitsToNat [a, b] ≤ 23
    · by_cases h2 : digitsToNat [d, e] ≤ 59
      · have hok := normalizeTime_mk_five f ha hb hd he h1 h2
        have ht : t = String.mk [a, b, ':', d, e, ':', '0', '0'] := by
          have := h.symm.trans hok
          simpa using this
        subst ht
        refine ⟨by simp [isFullTimeShape, ha, hb, hd, he], ?_⟩
        exact normalizeTime_mk_eight f ha hb hd he (by decide) (by decide) h1 h2 (by decide)
      · rw [normalizeTime] at h
        simp only [hp, if_true] at h
        simp only [timeParts_five ha hb hd he] at h
        simp [h2] at h
    · rw [normalizeTime] at h
      simp only [hp, if_true] at h
      simp only [timeParts_five ha hb hd he] at h
      simp [h1] at h
  · simp only [Bool.and_eq_true, decide_eq_true_eq] at hdig
    obtain ⟨ha, hb, hd, he, hg, hk⟩ := hdig
    cases hl
    by_cases h1 : digitsToNat [a, b] ≤ 23
    · by_cases h2 : digitsToNat [d, e] ≤ 59
      · by_cases h3 : digitsToNat [g, k] ≤ 59
        · have hok := normalizeTime_mk_eight f ha hb hd he hg hk h1 h2 h3
          have ht : t = String.mk [a, b, ':', d, e, ':', g, k] := by
            have := h.symm.trans hok
            simpa using this
          subst ht
          refine ⟨by simp [isFullTimeShape, ha, hb, hd, he, hg, hk], ?_⟩
          exact normalizeTime_mk_eight f ha hb hd he hg hk h1 h2 h3
        · rw [normalizeTime] at h
          simp only [hp, if_true] at h
          simp only [timeParts_eight ha hb hd he hg hk] at h
          simp [h3] at h
      · rw [normalizeTime] at h
        simp only [hp, if_true] at h
        simp only [timeParts_eight ha hb hd he hg hk] at h
        simp [h2] at h
    · rw [normalizeTime] at h
      simp only [hp, if_true] at h
      simp only [timeParts_eight ha hb hd he hg hk] at h
      simp [h1] at h

/-- Claim C1, counterexample: `normalizeTime` does **not** accept `"8:00"` —
the `TIME_PATTERN` regex requires a two-digit hour, so a single-digit hour
fails with the format error instead of being padded to `"08:00:00"`. -/
theorem normalizeTime_rejects_single_digit_hour :
    normalizeTime "8:00" "start_time" =
      .error (.badRequest "start_time 格式必须为 HH:mm 或 HH:mm:ss") ∧
    normalizeTime "8:00" "start_time" ≠ .ok "08:00:00" := by
  constructor
  · rfl
  · intro h
    rw [show normalizeTime "8:00" "start_time" =
      .error (.badRequest "start_time 格式必须为 HH:mm 或 HH:mm:ss") from rfl] at h
    exact Except.noConfusion h

/-- Claim C1 (amended): `normalizeTime(s, f)` succeeds iff `s` matches the
two-digit pattern `HH:MM` or `HH:MM:SS` with hour 0–23 and minute/second
0–59, and then returns the `HH:MM:SS` form; it is idempotent on normalized
input (`"08:00:00"` stays fixed), rejects `"24:00"` with a range validation
error citing the field label, and rejects the single-digit `"8:00"` with
the format validation error citing the field label (it is *not* padded). -/
theorem normalizeTime_contract :
    (∀ s f, (∃ t, normalizeTime s f = .ok t) ↔ validTimeInput s = true) ∧
    (∀ s f t, normalizeTime s f = .ok t → isFullTimeShape t = true ∧ normalizeTime t f = .ok t) ∧
    (∀ f, normalizeTime "08:00:00" f = .ok "08:00:00") ∧
    (∀ f, normalizeTime "24:00" f = .error (.badRequest (f ++ " 必须为合法时间"))) ∧
    (∀ f, normalizeTime "8:00" f = .error (.badRequest (f ++ " 格式必须为 HH:mm 或 HH:mm:ss"))) :=
  ⟨normalizeTime_ok_iff, fun _ _ _ h => normalizeTime_ok_imp h, fun _ => rfl, fun _ => rfl,
    fun _ => rfl⟩

/-- Claim C1, witness: the contract evaluated at concrete inputs. -/
theorem normalizeTime_contract_instance :
    (∃ t, normalizeTime "09:30" "start_time" = .ok t) ∧
    (isFullTimeShape "09:30:00" = true ∧ normalizeTime "09:30:00" "start_time" = .ok "09:30:00") :=
  ⟨(normalizeTime_contract.1 "09:30" "start_time").mpr (by decide),
    normalizeTime_contract.2.1 "09:30" "start_time" "09:30:00" rfl⟩

set_option maxHeartbeats 1000000 in
theorem validateItem_ok_iff (item : RecordItem) :
    validateItem item = .ok () ↔ validTextItem item ∨ validRefItem item := by
  obtain ⟨id, rid, ty, st, tv, ru, ps, pe, srt, ct, ut⟩ := item
  simp only [validateItem, validTextItem, validRefItem]
  rcases tv with _ | s <;> rcases ru with _ | r <;> rcases ps with _ | a <;>
    rcases pe with _ | b <;> dsimp only <;> split_ifs <;>
    simp_all <;> omega

/-- Claim C3: `validateItem` succeeds exactly on items satisfying their
type's contract — TEXT(0): status in `{0, 2}`, trimmed non-empty
`text_value`, all REF fields null; REF(1): status in `{0, 1, 2}`, present
integer `ref_uid`, null `text_value`, `0 ≤ progress_start ≤ 99`,
`1 ≤ progress_end ≤ 100`, `progress_start < progress_end` — and its
validation messages are pairwise distinct, one per violated rule. -/
theorem validateItem_contract :
    (∀ item, validateItem item = .ok () ↔ validTextItem item ∨ validRefItem item) ∧
    validateItemMessages.Nodup :=
  ⟨validateItem_ok_iff, by decide⟩

/-- Claim C3, witness: the item contract evaluated on a concrete TEXT item. -/
theorem validateItem_contract_instance : validateItem sampleTextItem = .ok () :=
  (validateItem_contract.1 sampleTextItem).mpr
    (Or.inl ⟨rfl, Or.inr rfl, ⟨"done", rfl, by decide⟩, rfl, rfl, rfl⟩)

/-- Claim C4: `updateItem` merges only the provided fields over the stored
item (explicit `null` clears the nullable fields, absent fields keep their
prior values, `item_type` is never changed), re-validates the merged result
against the stored item's own type rules, and raises a `NotFound` error —
an error kind distinct from a validation error — when no item has the id. -/
theorem updateItem_contract (items : List RecordItem) (itemId : Int)
    (input : UpdateItemInput) (now : String) :
    (items.find? (fun it => it.id == itemId) = none →
      updateItem items itemId input now = .error (.notFound "记录项不存在")) ∧
    (∀ item, items.find? (fun it => it.id == itemId) = some item →
      updateFrame item (mergeUpdateItem item input now) input ∧
      (validateItem (mergeUpdateItem item input now) = .ok () →
        updateItem items itemId input now = .ok (mergeUpdateItem item input now)) ∧
      (∀ e, validateItem (mergeUpdateItem item input now) = .error e →
        updateItem items itemId input now = .error e)) ∧
    (∀ m m2, AppError.notFound m ≠ AppError.badRequest m2) := by
  refine ⟨?_, ?_, ?_⟩
  · intro h
    unfold updateItem
    rw [h]
  · intro item hfind
    refine ⟨?_, ?_, ?_⟩
    · unfold updateFrame mergeUpdateItem
      refine ⟨rfl, rfl, rfl, rfl, fun h => by simp [h], fun v h => by simp [h],
        fun h => by simp [h], fun v h => by simp [h], fun h => by simp [h],
        fun v h => by simp [h], fun h => by simp [h], fun v h => by simp [h],
        fun h => by simp [h], fun v h => by simp [h], fun h => by simp [h],
        fun v h => by simp [h]⟩
    · intro hok
      unfold updateItem
      rw [hfind]
      dsimp only
      rw [hok]
    · intro e he
      unfold updateItem
      rw [hfind]
      dsimp only
      rw [he]
  · intro m m2 h
    exact AppError.noConfusion h

/-- Claim C4, witness: the update contract evaluated on a concrete store. -/
theorem updateItem_contract_instance :
    updateItem [sampleTextItem] 1 sampleUpdateInput "t" =
      .ok (mergeUpdateItem sampleTextItem sampleUpdateInput "t") ∧
    updateItem [] 1 sampleUpdateInput "t" = .error (.notFound "记录项不存在") :=
  ⟨((updateItem_contract [sampleTextItem] 1 sampleUpdateInput "t").2.1 sampleTextItem
      (by decide)).2.1 (by decide),
    (updateItem_contract [] 1 sampleUpdateInput "t").1 (by decide)⟩

/-- Claim C7, counterexample: the post-processing of `normalizeWork` does
**not** trim item strings or drop blanks — the matched day's items are
returned verbatim (`" a "` and `" "` survive). -/
theorem normalizeWorkPost_no_trimming :
    normalizeWorkPost [{ date := "2026-02-02", items := [" a ", " "] }] "2026-02-02" =
      [{ date := "2026-02-02", items := [" a ", " "] }] ∧
    normalizeWorkPost [{ date := "2026-02-02", items := [" a ", " "] }] "2026-02-02" ≠
      [{ date := "2026-02-02", items := ["a"] }] :=
  ⟨rfl, by decide⟩

/-- Claim C7 (amended): `normalizeWork` post-processing returns exactly one
entry — the first entry whose date equals the selected base date, with its
items passed through unchanged (no trimming, no blank-dropping), or an
empty items array when the model produced no entry for that date; every
other date the model emitted is discarded. -/
theorem normalizeWorkPost_contract (days : List NormalizedWorkDay) (baseDate : String) :
    (normalizeWorkPost days baseDate).length = 1 ∧
    (∀ e ∈ normalizeWorkPost days baseDate, e.date = baseDate) ∧
    (days.find? (fun d => d.date == baseDate) = none →
      normalizeWorkPost days baseDate = [{ date := baseDate, items := [] }]) ∧
    (∀ d, days.find? (fun d2 => d2.date == baseDate) = some d →
      normalizeWorkPost days baseDate = [{ date := baseDate, items := d.items }]) := by
  unfold normalizeWorkPost
  cases h : days.find? (fun d => d.date == baseDate) <;> simp

/-- Claim C7, witness: the single-date collapse on a two-day model output. -/
theorem normalizeWorkPost_contract_instance :
    normalizeWorkPost [{ date := "2026-02-01", items := ["y"] },
        { date := "2026-02-02", items := ["x"] }] "2026-02-02" =
      [{ date := "2026-02-02", items := ["x"] }] :=
  (normalizeWorkPost_contract _ "2026-02-02").2.2.2
    { date := "2026-02-02", items := ["x"] } (by decide)

theorem holidayRetry_ok (res : Nat → Except DbError Unit) (h : res 1 = .ok ()) :
    replaceHolidayDaysByYear res = (.ok (), []) := by
  rw [replaceHolidayDaysByYear, holidayRetryLoop, h]

theorem holidayRetry_step (res : Nat → Except DbError Unit) (n : Nat) (e : DbError)
    (h : res n = .error e) (hr : isRetryableLockError e = true) (hn : n < 3) :
    holidayRetryLoop res n =
      ((holidayRetryLoop res (n + 1)).1, n * 40 :: (holidayRetryLoop res (n + 1)).2) := by
  rw [holidayRetryLoop, h]
  dsimp only
  rw [dif_neg (by simp [hr]; omega)]

theorem holidayRetry_last (res : Nat → Except DbError Unit) (n : Nat) (e : DbError)
    (h : res n = .error e) (hstop : isRetryableLockError e = false ∨ 3 ≤ n) :
    holidayRetryLoop res n = (.error e, []) := by
  rw [holidayRetryLoop, h]
  dsimp only
  rw [dif_pos (by rcases hstop with h1 | h1 <;> simp [h1])]

theorem holidayRetry_done (res : Nat → Except DbError Unit) (n : Nat) (h : res n = .ok ()) :
    holidayRetryLoop res n = (.ok (), []) := by
  rw [holidayRetryLoop, h]

/-- Claim C8: the holiday-year replacement retries the transaction only on
retryable lock errors (deadlock / lock-wait timeout), up to 3 attempts with
incremental delays (40ms, 80ms) between attempts, surfaces the storage
error when the budget is exhausted, and propagates any other error
immediately on the first attempt with no retry and no delay. -/
theorem replaceHolidayDaysByYear_retry_contract :
    (∀ res, res 1 = .ok () → replaceHolidayDaysByYear res = (.ok (), [])) ∧
    (∀ res e, res 1 = .error e → isRetryableLockError e = false →
      replaceHolidayDaysByYear res = (.error e, [])) ∧
    (∀ res e1, res 1 = .error e1 → isRetryableLockError e1 = true → res 2 = .ok () →
      replaceHolidayDaysByYear res = (.ok (), [40])) ∧
    (∀ res e1 e2, res 1 = .error e1 → isRetryableLockError e1 = true → res 2 = .error e2 →
      isRetryableLockError e2 = false → replaceHolidayDaysByYear res = (.error e2, [40])) ∧
    (∀ res e1 e2, res 1 = .error e1 → isRetryableLockError e1 = true → res 2 = .error e2 →
      isRetryableLockError e2 = true → res 3 = .ok () →
      replaceHolidayDaysByYear res = (.ok (), [40, 80])) ∧
    (∀ res e1 e2 e3, res 1 = .error e1 → isRetryableLockError e1 = true → res 2 = .error e2 →
      isRetryableLockError e2 = true → res 3 = .error e3 →
      replaceHolidayDaysByYear res = (.error e3, [40, 80])) := by
  refine ⟨?_, ?_, ?_, ?_, ?_, ?_⟩
  · intro res h
    rw [replaceHolidayDaysByYear, holidayRetry_done res 1 h]
  · intro res e h hr
    rw [replaceHolidayDaysByYear, holidayRetry_last res 1 e h (Or.inl hr)]
  · intro res e1 h1 hr1 h2
    rw [replaceHolidayDaysByYear, holidayRetry_step res 1 e1 h1 hr1 (by omega),
      holidayRetry_done res 2 h2]
  · intro res e1 e2 h1 hr1 h2 hr2
    rw [replaceHolidayDaysByYear, holidayRetry_step res 1 e1 h1 hr1 (by omega),
      holidayRetry_last res 2 e2 h2 (Or.inl hr2)]
  · intro res e1 e2 h1 hr1 h2 hr2 h3
    rw [replaceHolidayDaysByYear, holidayRetry_step res 1 e1 h1 hr1 (by omega),
      holidayRetry_step res 2 e2 h2 hr2 (by omega), holidayRetry_done res 3 h3]
  · intro res e1 e2 e3 h1 hr1 h2 hr2 h3
    rw [replaceHolidayDaysByYear, holidayRetry_step res 1 e1 h1 hr1 (by omega),
      holidayRetry_step res 2 e2 h2 hr2 (by omega),
      holidayRetry_last res 3 e3 h3 (Or.inr (by omega))]

/-- Claim C8, witness: one deadlock then success retries once; a duplicate
key error propagates immediately. -/
theorem replaceHolidayDaysByYear_retry_instance :
    replaceHolidayDaysByYear
      (fun n => if n = 1 then .error deadlockError else .ok ()) = (.ok (), [40]) ∧
    replaceHolidayDaysByYear (fun _ => .error plainError) = (.error plainError, []) :=
  ⟨replaceHolidayDaysByYear_retry_contract.2.2.1 _ deadlockError (by decide) (by decide)
      (by decide),
    replaceHolidayDaysByYear_retry_contract.2.1 _ plainError rfl (by decide)⟩

theorem trimChars_eq_rdropWhile (l : List Char) :
    trimChars l = List.rdropWhile isWsChar (List.dropWhile isWsChar l) := rfl

theorem dropWhile_head_not {p : Char → Bool} {l : List Char} {x : Char} {xs : List Char}
    (h : List.dropWhile p l = x :: xs) : p x = false := by
  induction l with
  | nil => simp [List.dropWhile] at h
  | cons y ys ih =>
    rw [List.dropWhile_cons] at h
    by_cases hp : p y = true
    · rw [if_pos hp] at h
      exact ih h
    · rw [if_neg hp] at h
      cases h
      simpa using hp

theorem dropWhile_eq_self_of_head {p : Char → Bool} {l : List Char}
    (h : ∀ x xs, l = x :: xs → p x = false) : List.dropWhile p l = l := by
  cases l with
  | nil => rfl
  | cons x xs =>
    rw [List.dropWhile_cons, if_neg (by simp [h x xs rfl])]

theorem dropWhile_rdropWhile_dropWhile (l : List Char) :
    List.dropWhile isWsChar (List.rdropWhile isWsChar (List.dropWhile isWsChar l)) =
      List.rdropWhile isWsChar (List.dropWhile isWsChar l) := by
  obtain ⟨t, ht⟩ := List.rdropWhile_prefix isWsChar (List.dropWhile isWsChar l)
  apply dropWhile_eq_self_of_head
  intro x xs hx
  rw [hx] at ht
  exact dropWhile_head_not ht.symm

theorem trimChars_idem (l : List Char) : trimChars (trimChars l) = trimChars l := by
  rw [trimChars_eq_rdropWhile, trimChars_eq_rdropWhile, dropWhile_rdropWhile_dropWhile,
    List.rdropWhile_idempotent]

theorem jsTrim_idem (s : String) : jsTrim (jsTrim s) = jsTrim s := by
  unfold jsTrim
  rw [trimChars_idem]

theorem bucketAdd_keys {α : Type} (b : List (String × List α)) (k : String) (v : List α) :
    (bucketAdd b k v).map Prod.fst =
      if k ∈ b.map Prod.fst then b.map Prod.fst else b.map Prod.fst ++ [k] := by
  induction b with
  | nil => simp [bucketAdd]
  | cons e rest ih =>
    obtain ⟨k', v'⟩ := e
    by_cases hk : k' = k
    · subst hk
      simp [bucketAdd]
    · simp only [bucketAdd, if_neg hk, List.map_cons, ih]
      by_cases hmem : k ∈ rest.map Prod.fst
      · simp [hmem, Ne.symm hk]
      · simp [hmem, Ne.symm hk]

theorem bucketAdd_not_mem {α : Type} (b : List (String × List α)) (k : String) (v : List α)
    (h : k ∉ b.map Prod.fst) : bucketAdd b k v = b ++ [(k, v)] := by
  induction b with
  | nil => rfl
  | cons e rest ih =>
    obtain ⟨k', v'⟩ := e
    simp only [List.map_cons, List.mem_cons] at h
    push_neg at h
    have hne : ¬ k' = k := fun hc => h.1 hc.symm
    simp only [bucketAdd, if_neg hne, List.cons_append]
    rw [ih h.2]

theorem bucketAdd_keys_nodup {α : Type} (b : List (String × List α)) (k : String) (v : List α)
    (h : (b.map Prod.fst).Nodup) : ((bucketAdd b k v).map Prod.fst).Nodup := by
  rw [bucketAdd_keys]
  by_cases hmem : k ∈ b.map Prod.fst
  · simpa [hmem]
  · simp only [hmem, if_false]
    simpa [List.nodup_append] using ⟨h, by simpa using hmem⟩

theorem bucketAdd_clean (b : List (String × List String)) (k : String) (v : List String)
    (hb : ∀ e ∈ b, cleanPair e) (hk : isDatePattern k.data = true) (hv : v ≠ [])
    (hvc : ∀ s ∈ v, jsTrim s = s ∧ s.length > 0) :
    ∀ e ∈ bucketAdd b k v, cleanPair e := by
  induction b with
  | nil =>
    intro e he
    simp only [bucketAdd, List.mem_singleton] at he
    subst he
    exact ⟨hk, hv, hvc⟩
  | cons p rest ih =>
    obtain ⟨k', v'⟩ := p
    intro e he
    by_cases hkk : k' = k
    · subst hkk
      simp only [bucketAdd, if_pos rfl] at he
      have hd := List.mem_cons.mp he
      rcases hd with hd1 | hd2
      · subst hd1
        have hp := hb (k', v') (by simp)
        refine ⟨hp.1, by simp [hp.2.1], ?_⟩
        intro s hs
        rcases List.mem_append.mp hs with hs1 | hs2
        · exact hp.2.2 s hs1
        · exact hvc s hs2
      · exact hb e (List.mem_cons_of_mem _ hd2)
    · simp only [bucketAdd, if_neg hkk] at he
      have hd := List.mem_cons.mp he
      rcases hd with hd1 | hd2
      · subst hd1
        exact hb (k', v') (by simp)
      · exact ih (fun q hq => hb q (List.mem_cons_of_mem _ hq)) e hd2

theorem dayStep_clean (b : List (String × List String)) (day : NormalizedWorkDay)
    (hb : ∀ e ∈ b, cleanPair e) : ∀ e ∈ dayStep b day, cleanPair e := by
  unfold dayStep
  by_cases hp : isDatePattern day.date.data = true
  · simp only [hp, not_true, if_neg, reduceIte]
    by_cases hi : ((day.items.map jsTrim).filter (fun s => s.length > 0)).isEmpty = true
    · simpa [hi] using hb
    · simp only [hi, if_false]
      refine bucketAdd_clean b day.date _ hb hp ?_ ?_
      · intro hc
        rw [hc] at hi
        simp at hi
      · intro s hs
        have hs2 := List.of_mem_filter hs
        have hs1 := List.mem_filter.mp hs
        obtain ⟨t, _, rfl⟩ := List.mem_map.mp hs1.1
        exact ⟨jsTrim_idem t, by simpa using hs2⟩
  · simpa [hp] using hb

theorem dayStep_keys_nodup (b : List (String × List String)) (day : NormalizedWorkDay)
    (hb : (b.map Prod.fst).Nodup) : ((dayStep b day).map Prod.fst).Nodup := by
  unfold dayStep
  by_cases hp : isDatePattern day.date.data = true
  · simp only [hp, not_true, if_neg, reduceIte]
    by_cases hi : ((day.items.map jsTrim).filter (fun s => s.length > 0)).isEmpty = true
    · simpa [hi] using hb
    · simp only [hi, if_false]
      exact bucketAdd_keys_nodup _ _ _ hb
  · simpa [hp] using hb

theorem foldl_dayStep_clean (days : List NormalizedWorkDay) :
    ∀ b, (∀ e ∈ b, cleanPair e) → ∀ e ∈ days.foldl dayStep b, cleanPair e := by
  induction days with
  | nil => intro b hb; simpa using hb
  | cons day rest ih =>
    intro b hb
    simpa using ih (dayStep b day) (dayStep_clean b day hb)

theorem foldl_dayStep_nodup (days : List NormalizedWorkDay) :
    ∀ b, (b.map Prod.fst).Nodup → ((days.foldl dayStep b).map Prod.fst).Nodup := by
  induction days with
  | nil => intro b hb; simpa using hb
  | cons day rest ih =>
    intro b hb
    simpa using ih (dayStep b day) (dayStep_keys_nodup b day hb)

theorem foldl_dayStep_clean_list (ds : List NormalizedWorkDay) :
    ∀ b, (∀ e ∈ ds, cleanEntry e) → (ds.map (fun e => e.date)).Nodup →
      (∀ d ∈ ds, d.date ∉ b.map Prod.fst) →
      ds.foldl dayStep b = b ++ ds.map (fun e => (e.date, e.items)) := by
  induction ds with
  | nil => intro b _ _ _; simp
  | cons e rest ih =>
    intro b hclean hnodup hdisj
    have hce := hclean e (by simp)
    have hnd : e.date ∉ rest.map (fun x => x.date) ∧ (rest.map (fun x => x.date)).Nodup := by
      rw [List.map_cons, List.nodup_cons] at hnodup
      exact hnodup
    have hstep : dayStep b e = b ++ [(e.date, e.items)] := by
      unfold dayStep
      have hitems : (e.items.map jsTrim).filter (fun s => s.length > 0) = e.items := by
        have hmap : e.items.map jsTrim = e.items :=
          (List.map_congr_left (fun s hs => (hce.2.2 s hs).1)).trans (List.map_id _)
        rw [hmap]
        exact List.filter_eq_self.mpr (fun s hs => by simpa using (hce.2.2 s hs).2)
      rw [if_neg (by simp [hce.1])]
      simp only [hitems]
      rw [if_neg (by simpa [List.isEmpty_iff] using hce.2.1)]
      exact bucketAdd_not_mem b e.date e.items (hdisj e (by simp))
    rw [List.foldl_cons, hstep, ih (b ++ [(e.date, e.items)])
      (fun d hd => hclean d (List.mem_cons_of_mem _ hd)) hnd.2 ?_]
    · simp
    · intro d hd
      simp only [List.map_append, List.mem_append]
      push_neg
      refine ⟨hdisj d (List.mem_cons_of_mem _ hd), ?_⟩
      have hne : d.date ≠ e.date := by
        intro hc
        exact hnd.1 (by rw [← hc]; exact List.mem_map_of_mem _ hd)
      simpa using hne

/-- Claim C9: the batch-payload merge of `worktime-mcp.ts` is idempotent —
re-normalizing an already-normalized `{days}` payload (with the same
fallback date) gives the same result, in both the fallback case and the
sorted-bucket case. -/
theorem normalizeDaysPayload_idem (input : List NormalizedWorkDay) (fallback : String) :
    normalizeDaysPayload (normalizeDaysPayload input fallback) fallback =
      normalizeDaysPayload input fallback := by
  by_cases hb : (buildDaysBucket input).isEmpty = true
  · have h1 : normalizeDaysPayload input fallback = [{ date := fallback, items := [] }] := by
      unfold normalizeDaysPayload
      rw [if_pos hb]
    rw [h1]
    unfold normalizeDaysPayload
    have h2 : buildDaysBucket [{ date := fallback, items := [] : NormalizedWorkDay }] = [] := by
      simp [buildDaysBucket, dayStep]
    rw [h2]
    simp
  · have hperm := List.perm_insertionSort ndayLe ((buildDaysBucket input).map
      (fun e => ({ date := e.1, items := e.2 } : NormalizedWorkDay)))
    have hres : normalizeDaysPayload input fallback =
        List.insertionSort ndayLe ((buildDaysBucket input).map
          (fun e => ({ date := e.1, items := e.2 } : NormalizedWorkDay))) := by
      unfold normalizeDaysPayload
      rw [if_neg hb]
    set r := List.insertionSort ndayLe ((buildDaysBucket input).map
      (fun e => ({ date := e.1, items := e.2 } : NormalizedWorkDay))) with hrdef
    rw [hres]
    have hcleanb : ∀ e ∈ buildDaysBucket input, cleanPair e :=
      foldl_dayStep_clean input [] (by simp)
    have hnodupb : ((buildDaysBucket input).map Prod.fst).Nodup :=
      foldl_dayStep_nodup input [] (by simp)
    have hcleanr : ∀ e ∈ r, cleanEntry e := by
      intro e he
      have hmem : e ∈ (buildDaysBucket input).map
          (fun e => ({ date := e.1, items := e.2 } : NormalizedWorkDay)) := hperm.subset he
      obtain ⟨p, hp, rfl⟩ := List.mem_map.mp hmem
      have hc := hcleanb p hp
      exact ⟨hc.1, hc.2.1, hc.2.2⟩
    have hdatesr : (r.map (fun e => e.date)).Nodup := by
      have hpm := hperm.map (fun e => e.date)
      rw [List.map_map] at hpm
      exact hpm.nodup_iff.mpr hnodupb
    have hsorted : List.Sorted ndayLe r := List.sorted_insertionSort ndayLe _
    have hrne : r ≠ [] := by
      intro hc
      have := hperm.length_eq
      rw [hc] at this
      simp only [List.length_nil, List.length_map] at this
      rw [List.isEmpty_iff] at hb
      exact hb (List.length_eq_zero.mp this.symm)
    unfold normalizeDaysPayload
    have hbuild : buildDaysBucket r = r.map (fun e => (e.date, e.items)) := by
      rw [buildDaysBucket]
      exact foldl_dayStep_clean_list r [] hcleanr hdatesr (by simp)
    rw [hbuild]
    rw [if_neg (by simpa [List.isEmpty_iff] using hrne)]
    rw [List.map_map]
    have hid : r.map ((fun e : String × List String =>
        ({ date := e.1, items := e.2 } : NormalizedWorkDay)) ∘
          (fun e : NormalizedWorkDay => (e.date, e.items))) = r :=
      (List.map_congr_left (fun e _ => rfl)).trans (List.map_id _)
    rw [hid, List.Sorted.insertionSort_eq hsorted]

theorem normalizeSlotList_ordering_error (date now : String) :
    ∀ (slots : List TimeSlotInput) (index : Nat),
      (∀ slot ∈ slots, ∃ s e, normalizeTime slot.start_time "start_time" = .ok s ∧
        normalizeTime slot.end_time "end_time" = .ok e) →
      (∃ slot ∈ slots, ∃ s e, normalizeTime slot.start_time "start_time" = .ok s ∧
        normalizeTime slot.end_time "end_time" = .ok e ∧ timeToSeconds s ≥ timeToSeconds e) →
      normalizeSlotList date now slots index = .error (.badRequest "start_time 必须早于 end_time") := by
  intro slots
  induction slots with
  | nil =>
    intro index _ hbad
    simp at hbad
  | cons slot rest ih =>
    intro index hall hbad
    obtain ⟨s, e, hs, he⟩ := hall slot (by simp)
    rw [normalizeSlotList, hs, he]
    dsimp only
    by_cases hord : timeToSeconds s ≥ timeToSeconds e
    · rw [if_pos hord]
    · rw [if_neg hord]
      have hbad' : ∃ slot ∈ rest, ∃ s e, normalizeTime slot.start_time "start_time" = .ok s ∧
          normalizeTime slot.end_time "end_time" = .ok e ∧ timeToSeconds s ≥ timeToSeconds e := by
        obtain ⟨slot', hmem, s', e', hs', he', hord'⟩ := hbad
        rcases List.mem_cons.mp hmem with h1 | h2
        · subst h1
          rw [hs] at hs'
          rw [he] at he'
          cases hs'
          cases he'
          exact absurd hord' hord
        · exact ⟨slot', h2, s', e', hs', he', hord'⟩
      rw [ih (index + 1) (fun q hq => hall q (List.mem_cons_of_mem _ hq)) hbad']

theorem normalizeSlotList_contains_bad (date now : String) :
    ∀ (slots : List TimeSlotInput) (index : Nat),
      (∃ sortv, ({ start_time := "12:00", end_time := "11:00", sort := sortv } : TimeSlotInput) ∈ slots) →
      ∃ e, normalizeSlotList date now slots index = .error e := by
  intro slots
  induction slots with
  | nil =>
    intro index h
    simp at h
  | cons slot rest ih =>
    intro index hmem
    obtain ⟨sortv, hv⟩ := hmem
    rw [normalizeSlotList]
    cases hs : normalizeTime slot.start_time "start_time" with
    | error e => exact ⟨e, rfl⟩
    | ok s =>
      cases he : normalizeTime slot.end_time "end_time" with
      | error e => exact ⟨e, rfl⟩
      | ok e =>
        dsimp only
        by_cases hord : timeToSeconds s ≥ timeToSeconds e
        · rw [if_pos hord]
          exact ⟨_, rfl⟩
        · rw [if_neg hord]
          have hrest : ({ start_time := "12:00", end_time := "11:00", sort := sortv } :
              TimeSlotInput) ∈ rest := by
            rcases List.mem_cons.mp hv with h1 | h2
            · exfalso
              subst h1
              rw [show normalizeTime "12:00" "start_time" = .ok "12:00:00" from rfl] at hs
              rw [show normalizeTime "11:00" "end_time" = .ok "11:00:00" from rfl] at he
              cases hs
              cases he
              exact hord (by decide)
            · exact h2
          obtain ⟨err, herr⟩ := ih (index + 1) ⟨sortv, hrest⟩
          rw [herr]
          exact ⟨err, rfl⟩

theorem normalizeSlotList_ok_spec (date now : String) :
    ∀ (slots : List TimeSlotInput) (index : Nat) (ns : List WorkSlot),
      normalizeSlotList date now slots index = .ok ns →
      ∀ w ∈ ns, w.work_date = date ∧ isFullTimeShape w.start_time = true ∧
        isFullTimeShape w.end_time = true ∧ timeToSeconds w.start_time < timeToSeconds w.end_time := by
  intro slots
  induction slots with
  | nil =>
    intro index ns h w hw
    rw [normalizeSlotList] at h
    cases h
    simp at hw
  | cons slot rest ih =>
    intro index ns h w hw
    rw [normalizeSlotList] at h
    cases hs : normalizeTime slot.start_time "start_time" with
    | error e => rw [hs] at h; cases h
    | ok s =>
      cases he : normalizeTime slot.end_time "end_time" with
      | error e => rw [hs, he] at h; cases h
      | ok e =>
        rw [hs, he] at h
        dsimp only at h
        by_cases hord : timeToSeconds s ≥ timeToSeconds e
        · rw [if_pos hord] at h
          cases h
        · rw [if_neg hord] at h
          cases ht : normalizeSlotList date now rest (index + 1) with
          | error e2 => rw [ht] at h; cases h
          | ok tail =>
            rw [ht] at h
            cases h
            rcases List.mem_cons.mp hw with h1 | h2
            · subst h1
              exact ⟨rfl, (normalizeTime_ok_imp hs).1, (normalizeTime_ok_imp he).1,
                by dsimp only; omega⟩
            · exact ih (index + 1) tail ht w h2

theorem assignSlotIds_mem (ns : List WorkSlot) :
    ∀ (i : Int) (w : WorkSlot), w ∈ assignSlotIds i ns →
      ∃ v ∈ ns, w.start_time = v.start_time ∧ w.end_time = v.end_time ∧
        w.work_date = v.work_date := by
  induction ns with
  | nil => intro i w hw; simp [assignSlotIds] at hw
  | cons v rest ih =>
    intro i w hw
    rcases List.mem_cons.mp hw with h1 | h2
    · subst h1
      exact ⟨v, by simp, rfl, rfl, rfl⟩
    · obtain ⟨v', hv', h⟩ := ih (i + 1) w h2
      exact ⟨v', List.mem_cons_of_mem _ hv', h⟩

theorem filter_ne_then_eq (l : List WorkSlot) (date : String) :
    (l.filter (fun s => s.work_date != date)).filter (fun s => s.work_date == date) = [] := by
  rw [List.filter_filter]
  apply List.filter_eq_nil_iff.mpr
  intro s _
  simp [bne]

theorem getSlotsByDate_replace (db : WorkDb) (date : String) (ns : List WorkSlot)
    (hns : ∀ w ∈ ns, w.work_date = date) :
    getSlotsByDate (replaceSlots db date ns) date =
      List.insertionSort slotLe (assignSlotIds db.nextSlotId ns) := by
  unfold getSlotsByDate replaceSlots
  dsimp only
  rw [List.filter_append, filter_ne_then_eq]
  rw [List.filter_eq_self.mpr]
  · simp
  · intro w hw
    obtain ⟨v, hv, _, _, hdw⟩ := assignSlotIds_mem ns db.nextSlotId w hw
    simp [hdw, hns v hv]

theorem replaceSlots_frame (db : WorkDb) (date : String) (ns : List WorkSlot)
    (hns : ∀ w ∈ ns, w.work_date = date) :
    (replaceSlots db date ns).slots.filter (fun s => s.work_date != date) =
      db.slots.filter (fun s => s.work_date != date) := by
  unfold replaceSlots
  dsimp only
  rw [List.filter_append, List.filter_filter]
  have h1 : (assignSlotIds db.nextSlotId ns).filter (fun s => s.work_date != date) = [] := by
    apply List.filter_eq_nil_iff.mpr
    intro w hw
    obtain ⟨v, hv, _, _, hdw⟩ := assignSlotIds_mem ns db.nextSlotId w hw
    simp [bne, hdw, hns v hv]
  rw [h1, List.append_nil]
  congr 1
  funext s
  simp [Bool.and_self]

/-- Claim C5: with a valid date, `saveSlots` raises the start-before-end
validation error whenever the slots all have well-formed times and some
slot's normalized start is not strictly before its normalized end; a slot
`12:00 → 11:00` in the list always makes the call fail; on success the
persisted slot set for the date is replaced wholesale (other dates
untouched) in one delete-then-insert step and the returned list is the
freshly persisted one, sorted by `(sort, id)`, with both bounds in
normalized `HH:MM:SS` form and strictly increasing; the empty list is
valid and clears the date's slots. -/
theorem saveSlots_contract (db : WorkDb) (date : String) (slots : List TimeSlotInput)
    (now : String) (hd : isDatePattern date.data = true) :
    ((∀ slot ∈ slots, ∃ s e, normalizeTime slot.start_time "start_time" = .ok s ∧
        normalizeTime slot.end_time "end_time" = .ok e) →
      (∃ slot ∈ slots, ∃ s e, normalizeTime slot.start_time "start_time" = .ok s ∧
        normalizeTime slot.end_time "end_time" = .ok e ∧ timeToSeconds s ≥ timeToSeconds e) →
      saveSlots db date slots now = .error (.badRequest "start_time 必须早于 end_time")) ∧
    ((∃ sortv, ({ start_time := "12:00", end_time := "11:00", sort := sortv } :
        TimeSlotInput) ∈ slots) → ∃ e, saveSlots db date slots now = .error e) ∧
    (∀ ns, normalizeSlotList date now slots 0 = .ok ns →
      saveSlots db date slots now =
        .ok (replaceSlots db date ns,
          List.insertionSort slotLe (assignSlotIds db.nextSlotId ns)) ∧
      (replaceSlots db date ns).slots.filter (fun s => s.work_date != date) =
        db.slots.filter (fun s => s.work_date != date) ∧
      (∀ w ∈ List.insertionSort slotLe (assignSlotIds db.nextSlotId ns),
        w.work_date = date ∧ isFullTimeShape w.start_time = true ∧
          isFullTimeShape w.end_time = true ∧
          timeToSeconds w.start_time < timeToSeconds w.end_time)) ∧
    (slots = [] →
      saveSlots db date slots now = .ok (replaceSlots db date [], []) ∧
      (replaceSlots db date []).slots = db.slots.filter (fun s => s.work_date != date)) := by
  have hdate : ensureDate date = .ok () := by
    unfold ensureDate
    rw [if_pos hd]
  have hslots : ∀ ns, normalizeSlotList date now slots 0 = .ok ns →
      ∀ w ∈ ns, w.work_date = date := by
    intro ns hns w hw
    exact (normalizeSlotList_ok_spec date now slots 0 ns hns w hw).1
  refine ⟨?_, ?_, ?_, ?_⟩
  · intro hall hbad
    unfold saveSlots
    rw [hdate, normalizeSlotList_ordering_error date now slots 0 hall hbad]
  · intro hmem
    obtain ⟨err, herr⟩ := normalizeSlotList_contains_bad date now slots 0 hmem
    refine ⟨err, ?_⟩
    unfold saveSlots
    rw [hdate, herr]
  · intro ns hns
    have hdates := hslots ns hns
    refine ⟨?_, replaceSlots_frame db date ns hdates, ?_⟩
    · unfold saveSlots
      rw [hdate, hns]
      dsimp only
      rw [getSlotsByDate_replace db date ns hdates]
    · intro w hw
      have hw2 : w ∈ assignSlotIds db.nextSlotId ns := by
        have := (List.perm_insertionSort slotLe (assignSlotIds db.nextSlotId ns)).mem_iff.mp hw
        exact this
      obtain ⟨v, hv, h1, h2, h3⟩ := assignSlotIds_mem ns db.nextSlotId w hw2
      have hvspec := normalizeSlotList_ok_spec date now slots 0 ns hns v hv
      rw [h1, h2, h3]
      exact hvspec
  · intro hempty
    subst hempty
    have h0 : normalizeSlotList date now [] 0 = .ok [] := rfl
    refine ⟨?_, ?_⟩
    · unfold saveSlots
      rw [hdate, h0]
      dsimp only
      rw [getSlotsByDate_replace db date [] (by simp)]
      simp [assignSlotIds]
    · simp [replaceSlots, assignSlotIds]

/-- Claim C5, witness: the `12:00 → 11:00` slot always fails; the spec's
two-slot save succeeds with normalized bounds. -/
theorem saveSlots_contract_instance :
    (∃ e, saveSlots emptyDb "2026-02-02"
        [{ start_time := "12:00", end_time := "11:00", sort := none }] "t" = .error e) ∧
    saveSlots emptyDb "2026-02-02" sampleSlotInputs "t" =
      .ok (replaceSlots emptyDb "2026-02-02" sampleNormalizedSlots,
        List.insertionSort slotLe (assignSlotIds emptyDb.nextSlotId sampleNormalizedSlots)) :=
  ⟨(saveSlots_contract emptyDb "2026-02-02" _ "t" (by decide)).2.1 ⟨none, by decide⟩,
    ((saveSlots_contract emptyDb "2026-02-02" sampleSlotInputs "t" (by decide)).2.2.1
      sampleNormalizedSlots rfl).1⟩

theorem string_length_zero_iff (s : String) : s.length = 0 ↔ s = "" := by
  cases s with
  | mk l =>
    rw [show (String.mk l).length = l.length from rfl]
    rw [show ("" : String) = String.mk [] from rfl]
    constructor
    · intro h
      rw [List.length_eq_zero.mp h]
    · intro h
      cases h
      rfl

theorem validateItem_batchItem (rid sortVal : Int) (t now : String) (h : jsTrim t ≠ "") :
    validateItem (batchItem rid sortVal t now) = .ok () := by
  unfold validateItem batchItem
  simp [h]

theorem insertBatchItems_ok (texts : List String) :
    ∀ (db : WorkDb) (rid base : Int) (now : String), (∀ t ∈ texts, jsTrim t ≠ "") →
      insertBatchItems db rid base texts now =
        .ok { db with
              items := db.items ++ batchInserted rid base db.nextItemId texts now
              nextItemId := db.nextItemId + texts.length } := by
  induction texts with
  | nil =>
    intro db rid base now _
    rw [insertBatchItems, batchInserted]
    cases db
    simp
  | cons t rest ih =>
    intro db rid base now hnb
    rw [insertBatchItems, validateItem_batchItem rid base t now (hnb t (by simp))]
    dsimp only
    rw [ih _ rid (base + 1) now (fun q hq => hnb q (List.mem_cons_of_mem _ hq))]
    rw [batchInserted]
    cases db
    simp [insertItem, List.append_assoc] <;> omega

theorem batchInserted_spec (texts : List String) :
    ∀ (rid base nid : Int) (now : String) (it : RecordItem),
      it ∈ batchInserted rid base nid texts now →
      it.item_type = 0 ∧ it.status = 2 ∧ it.record_id = rid ∧
        ∃ t ∈ texts, it.text_value = some t := by
  induction texts with
  | nil => intro rid base nid now it h; simp [batchInserted] at h
  | cons t rest ih =>
    intro rid base nid now it h
    rw [batchInserted] at h
    rcases List.mem_cons.mp h with h1 | h2
    · subst h1
      exact ⟨rfl, rfl, rfl, t, by simp, rfl⟩
    · obtain ⟨hty, hst, hrid, t', ht', htv⟩ := ih rid (base + 1) (nid + 1) now it h2
      exact ⟨hty, hst, hrid, t', List.mem_cons_of_mem _ ht', htv⟩

theorem processBatchDay_ok (db : WorkDb) (day : BatchCreateDay) (now : String)
    (hd : isDatePattern day.date.data = true) (hnb : ∀ t ∈ day.items, jsTrim t ≠ "") :
    processBatchDay db day now =
      .ok
        ((if (day.items.map jsTrim).length > 0 then
            touchRecord
              { (ensureRecord db day.date now).2 with
                items := (ensureRecord db day.date now).2.items ++
                  batchInserted (ensureRecord db day.date now).1.id
                    (getNextItemSort (ensureRecord db day.date now).2
                      (ensureRecord db day.date now).1.id)
                    (ensureRecord db day.date now).2.nextItemId (day.items.map jsTrim) now
                nextItemId := (ensureRecord db day.date now).2.nextItemId +
                  (day.items.map jsTrim).length }
              (ensureRecord db day.date now).1.id now
          else
            { (ensureRecord db day.date now).2 with
              items := (ensureRecord db day.date now).2.items ++
                batchInserted (ensureRecord db day.date now).1.id
                  (getNextItemSort (ensureRecord db day.date now).2
                    (ensureRecord db day.date now).1.id)
                  (ensureRecord db day.date now).2.nextItemId (day.items.map jsTrim) now
              nextItemId := (ensureRecord db day.date now).2.nextItemId +
                (day.items.map jsTrim).length }),
          (day.items.map jsTrim).length) := by
  unfold processBatchDay
  rw [show ensureDate day.date = .ok () from by unfold ensureDate; rw [if_pos hd]]
  dsimp only
  have hany : (day.items.map jsTrim).any (fun t => t.length = 0) = false := by
    rw [Bool.eq_false_iff]
    intro hc
    obtain ⟨t, ht, hlen⟩ := List.any_eq_true.mp hc
    obtain ⟨u, hu, rfl⟩ := List.mem_map.mp ht
    exact hnb u hu (by simpa [string_length_zero_iff] using hlen)
  rw [hany]
  rw [if_neg Bool.false_ne_true]
  have hnb2 : ∀ t ∈ day.items.map jsTrim, jsTrim t ≠ "" := by
    intro t ht
    obtain ⟨u, hu, rfl⟩ := List.mem_map.mp ht
    rw [jsTrim_idem]
    exact hnb u hu
  rw [insertBatchItems_ok (day.items.map jsTrim) _ _ _ now hnb2]

theorem batchLoop_all_valid (days : List BatchCreateDay) :
    ∀ (db : WorkDb) (now : String),
      (∀ day ∈ days, isDatePattern day.date.data = true ∧ ∀ t ∈ day.items, jsTrim t ≠ "") →
      ∃ db', batchLoop db days now =
        .ok (db', days.map (fun d => (d.date, d.items.length)),
          (days.map (fun d => d.items.length)).sum,
          (days.filter (fun d => decide (0 < d.items.length))).map (fun d => d.date)) := by
  induction days with
  | nil =>
    intro db now _
    exact ⟨db, rfl⟩
  | cons day rest ih =>
    intro db now hv
    have hd := hv day (by simp)
    obtain ⟨db', hdb'⟩ := ih _ now (fun q hq => hv q (List.mem_cons_of_mem _ hq))
    rw [batchLoop, processBatchDay_ok db day now hd.1 hd.2]
    dsimp only
    rw [hdb']
    dsimp only
    refine ⟨db', ?_⟩
    simp only [Except.ok.injEq, List.map_cons, List.sum_cons, List.length_map,
      List.filter_cons, Prod.mk.injEq]
    refine ⟨trivial, trivial, trivial, ?_⟩
    by_cases hc : 0 < day.items.length
    · simp [hc]
    · simp [hc, Nat.eq_zero_of_not_pos hc]

/-- Claim C6 (amended): on a non-empty `days` array, `createItemsBatch`
creates for each day one TEXT item with status DONE per input string with
sequential sorts from the day's next available sort; a malformed date or a
blank item aborts the whole batch with a validation error (no per-day
error is caught), but a day whose `items` array is **empty** is accepted
with count 0 (the `items.some(len === 0)` check is vacuously false on
`[]`), still creating the day's record and emitting no notification; on
success it returns the per-day summary, the total count, and one
notification per day that received at least one item. -/
theorem createItemsBatch_contract :
    (∀ db now, createItemsBatch db [] now = .error (.badRequest "days 必须为非空数组")) ∧
    (∀ db day rest now e, processBatchDay db day now = .error e →
      createItemsBatch db (day :: rest) now = .error e) ∧
    (∀ db day now, isDatePattern day.date.data = false →
      processBatchDay db day now = .error (.badRequest "日期格式必须为 YYYY-MM-DD")) ∧
    (∀ db day now, isDatePattern day.date.data = true → (∃ t ∈ day.items, jsTrim t = "") →
      processBatchDay db day now = .error (.badRequest "items 不能为空")) ∧
    (∀ db day now, isDatePattern day.date.data = true → (∀ t ∈ day.items, jsTrim t ≠ "") →
      ∃ db2, processBatchDay db day now = .ok (db2, day.items.length) ∧
        db2.items = (ensureRecord db day.date now).2.items ++
          batchInserted (ensureRecord db day.date now).1.id
            (getNextItemSort (ensureRecord db day.date now).2
              (ensureRecord db day.date now).1.id)
            (ensureRecord db day.date now).2.nextItemId (day.items.map jsTrim) now) ∧
    (∀ rid base nid texts now it, it ∈ batchInserted rid base nid texts now →
      it.item_type = 0 ∧ it.status = 2 ∧ it.record_id = rid) ∧
    (∀ db days now, days ≠ [] →
      (∀ day ∈ days, isDatePattern day.date.data = true ∧ ∀ t ∈ day.items, jsTrim t ≠ "") →
      ∃ db', createItemsBatch db days now =
        .ok (db', days.map (fun d => (d.date, d.items.length)),
          (days.map (fun d => d.items.length)).sum,
          (days.filter (fun d => decide (0 < d.items.length))).map (fun d => d.date))) := by
  refine ⟨?_, ?_, ?_, ?_, ?_, ?_, ?_⟩
  · intro db now
    rfl
  · intro db day rest now e he
    unfold createItemsBatch
    rw [if_neg (by simp)]
    rw [batchLoop, he]
  · intro db day now hd
    unfold processBatchDay
    rw [show ensureDate day.date = .error (.badRequest "日期格式必须为 YYYY-MM-DD") from by
      unfold ensureDate; rw [if_neg (by simp [hd])]]
  · intro db day now hd hblank
    unfold processBatchDay
    rw [show ensureDate day.date = .ok () from by unfold ensureDate; rw [if_pos hd]]
    dsimp only
    have hany : (day.items.map jsTrim).any (fun t => t.length = 0) = true := by
      obtain ⟨t, ht, hbl⟩ := hblank
      refine List.any_eq_true.mpr ⟨jsTrim t, List.mem_map_of_mem _ ht, ?_⟩
      simp [hbl, string_length_zero_iff]
    rw [hany]
    rw [if_pos rfl]
  · intro db day now hd hnb
    have h := processBatchDay_ok db day now hd hnb
    rw [List.length_map] at h
    refine ⟨_, h, ?_⟩
    by_cases hc : day.items.length > 0
    · rw [if_pos hc]
      simp [touchRecord]
    · rw [if_neg hc]
  · intro rid base nid texts now it hmem
    have := batchInserted_spec texts rid base nid now it hmem
    exact ⟨this.1, this.2.1, this.2.2.1⟩
  · intro db days now hne hv
    obtain ⟨db', hdb'⟩ := batchLoop_all_valid days db now hv
    refine ⟨db', ?_⟩
    unfold createItemsBatch
    rw [if_neg (by simpa using hne), hdb']

/-- Claim C6, counterexample: a day whose `items` array is empty does
**not** raise a validation error — the batch succeeds with count 0, an
empty event list, and no items created (the claim says it should abort). -/
theorem createItemsBatch_accepts_empty_items :
    createItemsBatch emptyDb [{ date := "2026-02-02", items := [] }] "t" =
      .ok (dbAfterEmptyBatchDay, [("2026-02-02", 0)], 0, []) := rfl

/-- Claim C6, witness: a two-item day creates two TEXT/DONE items, total 2,
one notification. -/
theorem createItemsBatch_contract_instance :
    ∃ db', createItemsBatch emptyDb [{ date := "2026-02-02", items := ["a", "b"] }] "t" =
      .ok (db', [("2026-02-02", 2)], 2, ["2026-02-02"]) := by
  obtain ⟨db', hdb'⟩ := createItemsBatch_contract.2.2.2.2.2.2 emptyDb
    [{ date := "2026-02-02", items := ["a", "b"] }] "t" (by simp)
    (by intro day hday; simp at hday; subst hday; exact ⟨by decide, by decide⟩)
  exact ⟨db', by simpa using hdb'⟩

theorem assocLookup_bucketAdd {α : Type} (b : List (String × List α)) (k : String)
    (v : List α) (k2 : String) :
    assocLookup (bucketAdd b k v) k2 =
      if k2 = k then some (((assocLookup b k).getD []) ++ v) else assocLookup b k2 := by
  induction b with
  | nil =>
    simp only [bucketAdd, assocLookup]
    by_cases h : k = k2
    · subst h
      simp
    · rw [if_neg h, if_neg (fun hc => h hc.symm)]
  | cons e rest ih =>
    obtain ⟨k', v'⟩ := e
    simp only [bucketAdd]
    by_cases hk : k' = k
    · subst hk
      rw [if_pos rfl]
      simp only [assocLookup, if_pos rfl, Option.getD_some]
      by_cases h2 : k' = k2
      · subst h2
        simp
      · rw [if_neg h2, if_neg (fun hc => h2 hc.symm), if_neg h2]
    · rw [if_neg hk]
      simp only [assocLookup, if_neg hk]
      by_cases h2 : k' = k2
      · subst h2
        rw [if_pos rfl, if_neg (fun hc => hk hc), if_pos rfl]
      · rw [if_neg h2, ih, if_neg h2]

theorem mem_keys_bucketAdd {α : Type} (b : List (String × List α)) (k : String) (v : List α)
    (k2 : String) :
    k2 ∈ (bucketAdd b k v).map Prod.fst ↔ k2 ∈ b.map Prod.fst ∨ k2 = k := by
  rw [bucketAdd_keys]
  by_cases h : k ∈ b.map Prod.fst
  · rw [if_pos h]
    constructor
    · exact fun hm => Or.inl hm
    · rintro (hm | rfl)
      · exact hm
      · exact h
  · rw [if_neg h]
    simp

theorem assocLookup_eq_none_iff {α : Type} (b : List (String × List α)) (k : String) :
    assocLookup b k = none ↔ k ∉ b.map Prod.fst := by
  induction b with
  | nil => simp [assocLookup]
  | cons e rest ih =>
    obtain ⟨k', v'⟩ := e
    by_cases h : k' = k
    · subst h
      simp [assocLookup]
    · simp only [assocLookup, if_neg h, ih, List.map_cons, List.mem_cons]
      constructor
      · intro hn hor
        rcases hor with rfl | hm
        · exact h rfl
        · exact hn hm
      · intro hn hm
        exact hn (Or.inr hm)

theorem foldl_weekStep_lookup_some (days : List ReportDay) :
    ∀ (b : List (String × List ReportDay)) (k : String) (v : List ReportDay),
      assocLookup b k = some v →
      assocLookup (days.foldl weekStep b) k =
        some (v ++ days.filter (fun d => getWeekStart d.date == k)) := by
  induction days with
  | nil =>
    intro b k v h
    simpa using h
  | cons d rest ih =>
    intro b k v h
    rw [List.foldl_cons]
    by_cases hk : getWeekStart d.date = k
    · have hstep : assocLookup (weekStep b d) k = some (v ++ [d]) := by
        rw [weekStep, assocLookup_bucketAdd, if_pos hk.symm, hk, h]
        rfl
      have hf : List.filter (fun d => getWeekStart d.date == k) (d :: rest) =
          d :: List.filter (fun d => getWeekStart d.date == k) rest := by
        simp [List.filter_cons, hk]
      rw [ih (weekStep b d) k (v ++ [d]) hstep, hf]
      simp
    · have hstep : assocLookup (weekStep b d) k = some v := by
        rw [weekStep, assocLookup_bucketAdd, if_neg (fun hc => hk hc.symm), h]
      have hf : List.filter (fun d => getWeekStart d.date == k) (d :: rest) =
          List.filter (fun d => getWeekStart d.date == k) rest := by
        simp [List.filter_cons, hk]
      rw [ih (weekStep b d) k v hstep, hf]

theorem foldl_weekStep_lookup_none (days : List ReportDay) :
    ∀ (b : List (String × List ReportDay)) (k : String),
      assocLookup b k = none →
      assocLookup (days.foldl weekStep b) k =
        if (days.filter (fun d => getWeekStart d.date == k)).isEmpty then none
        else some (days.filter (fun d => getWeekStart d.date == k)) := by
  induction days with
  | nil =>
    intro b k h
    simpa using h
  | cons d rest ih =>
    intro b k h
    rw [List.foldl_cons]
    by_cases hk : getWeekStart d.date = k
    · have hstep : assocLookup (weekStep b d) k = some [d] := by
        rw [weekStep, assocLookup_bucketAdd, if_pos hk.symm, hk, h]
        rfl
      have hf : List.filter (fun d => getWeekStart d.date == k) (d :: rest) =
          d :: List.filter (fun d => getWeekStart d.date == k) rest := by
        simp [List.filter_cons, hk]
      rw [foldl_weekStep_lookup_some rest (weekStep b d) k [d] hstep, hf]
      simp
    · have hstep : assocLookup (weekStep b d) k = none := by
        rw [weekStep, assocLookup_bucketAdd, if_neg (fun hc => hk hc.symm), h]
      have hf : List.filter (fun d => getWeekStart d.date == k) (d :: rest) =
          List.filter (fun d => getWeekStart d.date == k) rest := by
        simp [List.filter_cons, hk]
      rw [ih (weekStep b d) k hstep, hf]

theorem foldl_weekStep_keys_nodup (days : List ReportDay) :
    ∀ (b : List (String × List ReportDay)), (b.map Prod.fst).Nodup →
      ((days.foldl weekStep b).map Prod.fst).Nodup := by
  induction days with
  | nil => intro b hb; simpa using hb
  | cons d rest ih =>
    intro b hb
    rw [List.foldl_cons]
    exact ih (weekStep b d) (bucketAdd_keys_nodup b _ [d] hb)

theorem mem_keys_foldl_weekStep (days : List ReportDay) :
    ∀ (b : List (String × List ReportDay)) (k : String),
      k ∈ (days.foldl weekStep b).map Prod.fst ↔
        k ∈ b.map Prod.fst ∨ ∃ d ∈ days, getWeekStart d.date = k := by
  induction days with
  | nil => intro b k; simp
  | cons d rest ih =>
    intro b k
    rw [List.foldl_cons, ih (weekStep b d) k, weekStep, mem_keys_bucketAdd]
    constructor
    · rintro ((hm | rfl) | ⟨d', hd', rfl⟩)
      · exact Or.inl hm
      · exact Or.inr ⟨d, by simp, rfl⟩
      · exact Or.inr ⟨d', List.mem_cons_of_mem _ hd', rfl⟩
    · rintro (hm | ⟨d', hd', rfl⟩)
      · exact Or.inl (Or.inl hm)
      · rcases List.mem_cons.mp hd' with h1 | h2
        · subst h1
          exact Or.inl (Or.inr rfl)
        · exact Or.inr ⟨d', h2, rfl⟩

theorem sorted_dayLe_head_min {x : ReportDay} {xs : List ReportDay}
    (h : List.Sorted dayLe (x :: xs)) : ∀ d ∈ x :: xs, x.date ≤ d.date := by
  intro d hd
  rcases List.mem_cons.mp hd with rfl | hm
  · exact le_refl _
  · exact List.rel_of_sorted_cons h d hm

theorem sorted_dayLe_getLast_max {l : List ReportDay} (h : List.Sorted dayLe l)
    (hne : l ≠ []) : ∀ d ∈ l, d.date ≤ (l.getLast hne).date := by
  induction l with
  | nil => simp at hne
  | cons x xs ih =>
    intro d hd
    cases xs with
    | nil =>
      simp at hd
      subst hd
      exact le_refl _
    | cons y ys =>
      rcases List.mem_cons.mp hd with rfl | hm
      · have h1 : dayLe d y := List.rel_of_sorted_cons h y (by simp)
        have h2 := ih h.of_cons (by simp) y (by simp)
        rw [List.getLast_cons (by simp)]
        exact le_trans h1 h2
      · rw [List.getLast_cons (by simp)]
        exact ih h.of_cons (by simp) d hm

theorem join_filter_cons (keys : List String) (d : ReportDay) (rest : List ReportDay)
    (hnd : keys.Nodup) (hmem : getWeekStart d.date ∈ keys) :
    List.Perm
      (keys.map (fun k => (d :: rest).filter (fun x => getWeekStart x.date == k))).join
      (d :: (keys.map (fun k => rest.filter (fun x => getWeekStart x.date == k))).join) := by
  induction keys with
  | nil => simp at hmem
  | cons k krest ih =>
    by_cases hk : getWeekStart d.date = k
    · have hf : (d :: rest).filter (fun x => getWeekStart x.date == k) =
          d :: rest.filter (fun x => getWeekStart x.date == k) := by
        simp [List.filter_cons, hk]
      have hothers : krest.map (fun k => (d :: rest).filter (fun x => getWeekStart x.date == k)) =
          krest.map (fun k => rest.filter (fun x => getWeekStart x.date == k)) := by
        apply List.map_congr_left
        intro k' hk'
        have hne : getWeekStart d.date ≠ k' := by
          intro hc
          rw [← hk] at hnd
          exact (List.nodup_cons.mp hnd).1 (hc ▸ hk')
        simp [List.filter_cons, hne]
      simp only [List.map_cons, List.join_cons, hf, hothers]
      simp
    · have hf : (d :: rest).filter (fun x => getWeekStart x.date == k) =
          rest.filter (fun x => getWeekStart x.date == k) := by
        simp [List.filter_cons, hk]
      have hmem2 : getWeekStart d.date ∈ krest := by
        rcases List.mem_cons.mp hmem with h1 | h2
        · exact absurd h1 hk
        · exact h2
      simp only [List.map_cons, List.join_cons, hf]
      have hstep1 := List.Perm.append_left
        (rest.filter (fun x => getWeekStart x.date == k))
        (ih (List.nodup_cons.mp hnd).2 hmem2)
      exact hstep1.trans List.perm_middle

theorem join_filter_perm (days : List ReportDay) :
    ∀ (keys : List String), keys.Nodup →
      (∀ d ∈ days, getWeekStart d.date ∈ keys) →
      List.Perm (keys.map (fun k => days.filter (fun x => getWeekStart x.date == k))).join
        days := by
  induction days with
  | nil =>
    intro keys _ _
    simp
  | cons d rest ih =>
    intro keys hnd hcov
    exact (join_filter_cons keys d rest hnd (hcov d (by simp))).trans
      ((ih keys hnd (fun q hq => hcov q (List.mem_cons_of_mem _ hq))).cons d)

theorem dowJs_weekStartEpoch (z : Int) : dowJs (weekStartEpoch z) = 1 := by
  simp only [weekStartEpoch, dowJs]
  omega

theorem join_insertionSort_perm (keys : List String) (days : List ReportDay) :
    List.Perm
      (keys.map (fun k => List.insertionSort dayLe
        (days.filter (fun x => getWeekStart x.date == k)))).join
      (keys.map (fun k => days.filter (fun x => getWeekStart x.date == k))).join := by
  induction keys with
  | nil => simp
  | cons k krest ih =>
    simp only [List.map_cons, List.join_cons]
    exact List.Perm.append (List.perm_insertionSort dayLe _) ih

theorem groupByWeek_join_perm (days : List ReportDay) :
    List.Perm ((groupByWeek days).map (fun w => w.days)).join days := by
  have hG : ((days.foldl weekStep []).map Prod.fst).Nodup :=
    foldl_weekStep_keys_nodup days [] (by simp)
  have hperm_keys : List.Perm
      (List.insertionSort strLe ((days.foldl weekStep []).map (fun e => e.1)))
      ((days.foldl weekStep []).map Prod.fst) :=
    List.perm_insertionSort strLe _
  have hnodup_keys :
      (List.insertionSort strLe ((days.foldl weekStep []).map (fun e => e.1))).Nodup :=
    hperm_keys.nodup_iff.mpr hG
  have hmem_keys : ∀ k,
      k ∈ List.insertionSort strLe ((days.foldl weekStep []).map (fun e => e.1)) ↔
        ∃ d ∈ days, getWeekStart d.date = k := by
    intro k
    rw [hperm_keys.mem_iff]
    rw [mem_keys_foldl_weekStep days [] k]
    simp
  have hlook : ∀ k ∈ List.insertionSort strLe ((days.foldl weekStep []).map (fun e => e.1)),
      assocLookup (days.foldl weekStep []) k =
        some (days.filter (fun x => getWeekStart x.date == k)) := by
    intro k hk
    have h0 := foldl_weekStep_lookup_none days [] k rfl
    have hne : ¬ (days.filter (fun x => getWeekStart x.date == k)).isEmpty = true := by
      intro hc
      rw [if_pos hc] at h0
      exact (assocLookup_eq_none_iff _ k).mp h0 (hperm_keys.mem_iff.mp hk)
    rw [if_neg hne] at h0
    exact h0
  have hjoin_eq : (groupByWeek days).map (fun w => w.days) =
      (List.insertionSort strLe ((days.foldl weekStep []).map (fun e => e.1))).map
        (fun k => List.insertionSort dayLe
          (days.filter (fun x => getWeekStart x.date == k))) := by
    rw [show groupByWeek days = groupByWeek days from rfl]
    unfold groupByWeek
    rw [List.map_map]
    apply List.map_congr_left
    intro k hk
    dsimp only [Function.comp]
    rw [hlook k hk]
    rfl
  rw [hjoin_eq]
  refine (join_insertionSort_perm _ days).trans ?_
  apply join_filter_perm days _ hnodup_keys
  intro d hd
  rw [hmem_keys]
  exact ⟨d, hd, rfl⟩

/-- Claim C10: `groupByWeek` partitions the surviving days by their Monday
week-start key (the key is the Monday of the day's week: its epoch day has
`getDay() = 1`); within each week the days are sorted by date ascending;
weeks are pairwise ordered by strictly ascending week key; each week's
`startDate`/`endDate` are the earliest/latest date actually present in the
week (not calendar bounds), so a singleton week has `startDate = endDate`. -/
theorem groupByWeek_contract (days : List ReportDay) :
    List.Perm ((groupByWeek days).map (fun w => w.days)).join days ∧
    (∀ w ∈ groupByWeek days, w.days ≠ []) ∧
    (∀ w ∈ groupByWeek days, ∀ a ∈ w.days, ∀ b ∈ w.days,
      getWeekStart a.date = getWeekStart b.date) ∧
    List.Pairwise (fun w w2 => ∀ a ∈ w.days, ∀ b ∈ w2.days,
      getWeekStart a.date < getWeekStart b.date) (groupByWeek days) ∧
    (∀ w ∈ groupByWeek days, List.Sorted dayLe w.days) ∧
    (∀ w ∈ groupByWeek days, w.startDate ∈ w.days.map (fun d => d.date) ∧
      (∀ d ∈ w.days, w.startDate ≤ d.date) ∧ w.endDate ∈ w.days.map (fun d => d.date) ∧
      (∀ d ∈ w.days, d.date ≤ w.endDate)) ∧
    (∀ w ∈ groupByWeek days, w.days.length = 1 → w.startDate = w.endDate) ∧
    (∀ s y m d, parseDateString s = some (y, m, d) →
      ∃ z, getWeekStart s =
        formatCivilDate (civilFromDays z).1 (civilFromDays z).2.1 (civilFromDays z).2.2 ∧
        dowJs z = 1) := by
  have hG : ((days.foldl weekStep []).map Prod.fst).Nodup :=
    foldl_weekStep_keys_nodup days [] (by simp)
  have hperm_keys : List.Perm
      (List.insertionSort strLe ((days.foldl weekStep []).map (fun e => e.1)))
      ((days.foldl weekStep []).map Prod.fst) :=
    List.perm_insertionSort strLe _
  have hnodup_keys :
      (List.insertionSort strLe ((days.foldl weekStep []).map (fun e => e.1))).Nodup :=
    hperm_keys.nodup_iff.mpr hG
  have hsorted_keys : List.Sorted strLe
      (List.insertionSort strLe ((days.foldl weekStep []).map (fun e => e.1))) :=
    List.sorted_insertionSort strLe _
  have hmem_keys : ∀ k,
      k ∈ List.insertionSort strLe ((days.foldl weekStep []).map (fun e => e.1)) ↔
        ∃ d ∈ days, getWeekStart d.date = k := by
    intro k
    rw [hperm_keys.mem_iff]
    rw [mem_keys_foldl_weekStep days [] k]
    simp
  have hlook : ∀ k ∈ List.insertionSort strLe ((days.foldl weekStep []).map (fun e => e.1)),
      assocLookup (days.foldl weekStep []) k =
        some (days.filter (fun x => getWeekStart x.date == k)) ∧
      days.filter (fun x => getWeekStart x.date == k) ≠ [] := by
    intro k hk
    have h0 := foldl_weekStep_lookup_none days [] k rfl
    have hne : ¬ (days.filter (fun x => getWeekStart x.date == k)).isEmpty = true := by
      intro hc
      rw [if_pos hc] at h0
      exact (assocLookup_eq_none_iff _ k).mp h0 (hperm_keys.mem_iff.mp hk)
    rw [if_neg hne] at h0
    exact ⟨h0, by simpa [List.isEmpty_iff] using hne⟩
  have hweeks : groupByWeek days =
      (List.insertionSort strLe ((days.foldl weekStep []).map (fun e => e.1))).map
        (fun key =>
          { startDate := (((List.insertionSort dayLe
                ((assocLookup (days.foldl weekStep []) key).getD [])).head?).map
              (fun d => d.date)).getD key
            endDate := (((List.insertionSort dayLe
                ((assocLookup (days.foldl weekStep []) key).getD [])).getLast?).map
              (fun d => d.date)).getD key
            hours := (List.insertionSort dayLe
                ((assocLookup (days.foldl weekStep []) key).getD [])).foldl
              (fun sum d => sum + d.hours) 0
            days := List.insertionSort dayLe
              ((assocLookup (days.foldl weekStep []) key).getD []) }) := rfl
  have hdays_of : ∀ k ∈ List.insertionSort strLe ((days.foldl weekStep []).map (fun e => e.1)),
      List.insertionSort dayLe ((assocLookup (days.foldl weekStep []) k).getD []) =
        List.insertionSort dayLe (days.filter (fun x => getWeekStart x.date == k)) := by
    intro k hk
    rw [(hlook k hk).1]
    rfl
  have hmem_w : ∀ w, w ∈ groupByWeek days →
      ∃ k, (k ∈ List.insertionSort strLe ((days.foldl weekStep []).map (fun e => e.1))) ∧
        w.days = List.insertionSort dayLe (days.filter (fun x => getWeekStart x.date == k)) ∧
        w.days ≠ [] ∧
        w.startDate = ((w.days.head?).map (fun d => d.date)).getD k ∧
        w.endDate = ((w.days.getLast?).map (fun d => d.date)).getD k ∧
        (∀ a ∈ w.days, getWeekStart a.date = k) := by
    intro w hw
    rw [hweeks] at hw
    obtain ⟨k, hk, rfl⟩ := List.mem_map.mp hw
    refine ⟨k, hk, ?_, ?_, ?_, ?_, ?_⟩
    · dsimp only
      rw [hdays_of k hk]
    · dsimp only
      rw [hdays_of k hk]
      intro hc
      have hlen := congrArg List.length hc
      rw [List.length_insertionSort] at hlen
      exact (hlook k hk).2 (List.length_eq_zero.mp hlen)
    · dsimp only
    · dsimp only
    · dsimp only
      rw [hdays_of k hk]
      intro a ha
      have := (List.mem_insertionSort dayLe).mp ha
      have := List.mem_filter.mp this
      simpa using this.2
  have hkey_of_mem : ∀ k ∈ List.insertionSort strLe
      ((days.foldl weekStep []).map (fun e => e.1)),
      ∀ a ∈ List.insertionSort dayLe ((assocLookup (days.foldl weekStep []) k).getD []),
        getWeekStart a.date = k := by
    intro k hk a ha
    rw [hdays_of k hk] at ha
    have hm := List.mem_filter.mp ((List.mem_insertionSort dayLe).mp ha)
    simpa using hm.2
  have hjoin_eq : (groupByWeek days).map (fun w => w.days) =
      (List.insertionSort strLe ((days.foldl weekStep []).map (fun e => e.1))).map
        (fun k => List.insertionSort dayLe
          (days.filter (fun x => getWeekStart x.date == k))) := by
    rw [hweeks, List.map_map]
    apply List.map_congr_left
    intro k hk
    dsimp only [Function.comp]
    rw [hdays_of k hk]
  refine ⟨groupByWeek_join_perm days, ?_, ?_, ?_, ?_, ?_, ?_, ?_⟩
  · intro w hw
    obtain ⟨k, hk, hdays, hne, _⟩ := hmem_w w hw
    exact hne
  · intro w hw a ha b hb
    obtain ⟨k, hk, hdays, hne, _, _, hkey⟩ := hmem_w w hw
    rw [hkey a ha, hkey b hb]
  · rw [hweeks, List.pairwise_map]
    have hpw : List.Pairwise (fun k k2 : String => k < k2)
        (List.insertionSort strLe ((days.foldl weekStep []).map (fun e => e.1))) := by
      have hand := List.Pairwise.and hsorted_keys hnodup_keys
      exact hand.imp (fun hab => lt_of_le_of_ne hab.1 hab.2)
    apply List.Pairwise.imp_of_mem ?_ hpw
    intro k k2 hk hk2 hlt a ha b hb
    dsimp only at ha hb
    rw [hkey_of_mem k hk a ha, hkey_of_mem k2 hk2 b hb]
    exact hlt
  · intro w hw
    obtain ⟨k, hk, hdays, _⟩ := hmem_w w hw
    rw [hdays]
    exact List.sorted_insertionSort dayLe _
  · intro w hw
    obtain ⟨k, hk, hdays, hne, hstart, hend, hkey⟩ := hmem_w w hw
    have hsorted : List.Sorted dayLe w.days := by
      rw [hdays]
      exact List.sorted_insertionSort dayLe _
    cases hdl : w.days with
    | nil => exact absurd hdl hne
    | cons x xs =>
      rw [hdl] at hstart hsorted
      refine ⟨?_, ?_, ?_, ?_⟩
      · rw [hstart]
        simp [hdl]
      · intro d hd
        rw [hstart]
        simp only [List.head?_cons, Option.map_some, Option.getD_some]
        exact sorted_dayLe_head_min hsorted d (hdl ▸ hd)
      · rw [hend, hdl]
        have hgl : (x :: xs).getLast? = some ((x :: xs).getLast (by simp)) :=
          List.getLast?_eq_getLast _ (by simp)
        rw [hgl]
        simp only [Option.map_some, Option.getD_some, List.mem_map]
        exact ⟨(x :: xs).getLast (by simp), List.getLast_mem _, rfl⟩
      · intro d hd
        rw [hend, hdl]
        have hgl : (x :: xs).getLast? = some ((x :: xs).getLast (by simp)) :=
          List.getLast?_eq_getLast _ (by simp)
        rw [hgl]
        simp only [Option.map_some', Option.getD_some]
        exact sorted_dayLe_getLast_max hsorted (by simp) d (hdl ▸ hd)
  · intro w hw hlen
    obtain ⟨k, hk, hdays, hne, hstart, hend, hkey⟩ := hmem_w w hw
    obtain ⟨x, hx⟩ := List.length_eq_one.mp hlen
    rw [hstart, hend, hx]
    rfl
  · intro s y m d hp
    refine ⟨weekStartEpoch (daysFromCivil y m d), ?_, dowJs_weekStartEpoch _⟩
    unfold getWeekStart
    rw [hp]

/-- Claim C10, witness: the grouping contract evaluated on two concrete
days, and the Monday property discharged for `"2026-02-10"`
(whose week starts on epoch day of 2026-02-09, a Monday). -/
theorem groupByWeek_contract_instance :
    (∀ w ∈ groupByWeek sampleReportDays, List.Sorted dayLe w.days) ∧
    (∃ z, getWeekStart "2026-02-10" =
      formatCivilDate (civilFromDays z).1 (civilFromDays z).2.1 (civilFromDays z).2.2 ∧
      dowJs z = 1) :=
  ⟨(groupByWeek_contract sampleReportDays).2.2.2.2.1,
    (groupByWeek_contract sampleReportDays).2.2.2.2.2.2.2 "2026-02-10" 2026 2 10 (by decide)⟩

theorem dedupFirst_aux (l : List String) :
    ∀ (acc : List String) (x : String),
      x ∈ l.foldl (fun acc d => if d ∈ acc then acc else acc ++ [d]) acc ↔
        x ∈ acc ∨ x ∈ l := by
  induction l with
  | nil => intro acc x; simp
  | cons d rest ih =>
    intro acc x
    rw [List.foldl_cons]
    by_cases hd : d ∈ acc
    · rw [if_pos hd, ih]
      constructor
      · rintro (h1 | h2)
        · exact Or.inl h1
        · exact Or.inr (List.mem_cons_of_mem _ h2)
      · rintro (h1 | h2)
        · exact Or.inl h1
        · rcases List.mem_cons.mp h2 with rfl | h3
          · exact Or.inl hd
          · exact Or.inr h3
    · rw [if_neg hd, ih]
      simp only [List.mem_append, List.mem_singleton, List.mem_cons]
      tauto

theorem dedupFirst_mem (l : List String) (x : String) : x ∈ dedupFirst l ↔ x ∈ l := by
  unfold dedupFirst
  rw [dedupFirst_aux]
  simp

theorem monthReportDates_mem (records : List DailyRecord) (slots : List WorkSlot)
    (date : String) :
    date ∈ monthReportDates records slots ↔
      date ∈ records.map (fun r => r.work_date) ∨ date ∈ slots.map (fun s => s.work_date) := by
  unfold monthReportDates
  rw [List.mem_insertionSort, dedupFirst_mem, List.mem_append]

theorem jsTrim_empty : jsTrim "" = "" := rfl

theorem reportTextItems_ne_nil_iff (records : List DailyRecord) (items : List RecordItem)
    (date : String) (hnd : (records.map (fun r => r.work_date)).Nodup) :
    reportTextItems records items date ≠ [] ↔
      ∃ rec ∈ records, rec.work_date = date ∧ ∃ it ∈ items, it.record_id = rec.id ∧
        it.item_type = 0 ∧ ∃ s, it.text_value = some s ∧ (jsTrim s).length > 0 := by
  unfold reportTextItems
  cases hfind : records.reverse.find? (fun r => r.work_date == date) with
  | none =>
    constructor
    · intro h
      exact absurd rfl h
    · rintro ⟨rec, hrec, hwd, -⟩
      exfalso
      have := List.find?_eq_none.mp hfind rec (List.mem_reverse.mpr hrec)
      simp [hwd] at this
  | some rec =>
    have hrecmem : rec ∈ records := List.mem_reverse.mp (List.mem_of_find?_eq_some hfind)
    have hwd : rec.work_date = date := by simpa using List.find?_some hfind
    constructor
    · intro h
      obtain ⟨t, ht⟩ := List.exists_mem_of_ne_nil _ h
      have h1 := List.mem_filter.mp ht
      obtain ⟨it, hit2, hmap⟩ := List.mem_map.mp h1.1
      have h2 := List.mem_filter.mp hit2
      have h3 := List.mem_filter.mp h2.1
      have hty : it.item_type = 0 := by
        have := h2.2
        simp only [Bool.and_eq_true, beq_iff_eq] at this
        exact this.1
      have htr : textTruthy it.text_value = true := by
        have := h2.2
        simp only [Bool.and_eq_true] at this
        exact this.2
      cases htv : it.text_value with
      | none => rw [htv] at htr; simp [textTruthy] at htr
      | some s =>
        refine ⟨rec, hrecmem, hwd, it, h3.1, by simpa using h3.2, hty, s, htv, ?_⟩
        rw [htv] at hmap
        simp only [Option.getD_some] at hmap
        rw [hmap]
        simpa using h1.2
    · rintro ⟨rec2, hrec2, hwd2, it, hit, hrid, hty, s, htv, hlen⟩
      have hrec_eq : rec2 = rec :=
        List.inj_on_of_nodup_map hnd hrec2 hrecmem (by rw [hwd2, hwd])
      subst hrec_eq
      apply List.ne_nil_of_mem (a := jsTrim s)
      apply List.mem_filter.mpr
      refine ⟨?_, by simpa using hlen⟩
      apply List.mem_map.mpr
      refine ⟨it, ?_, by rw [htv]; rfl⟩
      apply List.mem_filter.mpr
      refine ⟨List.mem_filter.mpr ⟨hit, by simp [hrid]⟩, ?_⟩
      have hs_ne : s ≠ "" := by
        intro hc
        rw [hc, jsTrim_empty] at hlen
        simp at hlen
      simp [hty, textTruthy, htv, hs_ne]

/-- Claim C2: the monthly report's day list contains exactly the dates that
have a record with at least one TEXT item whose trimmed text is non-empty;
a date with only slots, only REF items, or only blank TEXT items appears
neither there nor among the days of the `weeks` output (from which the
Markdown text is generated). -/
theorem monthReport_day_filter (records : List DailyRecord) (items : List RecordItem)
    (slots : List WorkSlot) (configSlots : List (String × String))
    (hnd : (records.map (fun r => r.work_date)).Nodup) :
    (∀ date, date ∈ (monthReportDayList records items slots configSlots).map
        (fun d => d.date) ↔
      ∃ rec ∈ records, rec.work_date = date ∧ ∃ it ∈ items, it.record_id = rec.id ∧
        it.item_type = 0 ∧ ∃ s, it.text_value = some s ∧ (jsTrim s).length > 0) ∧
    (∀ date, date ∈ (((monthReportWeeks records items slots configSlots).map
        (fun w => w.days)).join).map (fun d => d.date) ↔
      date ∈ (monthReportDayList records items slots configSlots).map (fun d => d.date)) := by
  constructor
  · intro date
    constructor
    · intro h
      obtain ⟨day, hday, rfl⟩ := List.mem_map.mp h
      have hfil := List.mem_filter.mp hday
      obtain ⟨date0, hdate0, rfl⟩ := List.mem_map.mp hfil.1
      have hlen := hfil.2
      have hne : reportTextItems records items date0 ≠ [] := by
        intro hc
        rw [show (reportDayFor records items slots configSlots date0).items =
          reportTextItems records items date0 from rfl, hc] at hlen
        simp at hlen
      exact (reportTextItems_ne_nil_iff records items
        (reportDayFor records items slots configSlots date0).date hnd).mp hne
    · intro hr
      have hmemdates : date ∈ monthReportDates records slots := by
        rw [monthReportDates_mem]
        obtain ⟨rec, hrec, hwd, -⟩ := hr
        exact Or.inl (List.mem_map.mpr ⟨rec, hrec, hwd⟩)
      have hne : reportTextItems records items date ≠ [] :=
        (reportTextItems_ne_nil_iff records items date hnd).mpr hr
      refine List.mem_map.mpr ⟨reportDayFor records items slots configSlots date, ?_, rfl⟩
      apply List.mem_filter.mpr
      refine ⟨List.mem_map.mpr ⟨date, hmemdates, rfl⟩, ?_⟩
      have hitems : (reportDayFor records items slots configSlots date).items =
          reportTextItems records items date := rfl
      rw [hitems]
      simpa using List.length_pos.mpr hne
  · intro date
    have h1 : ((monthReportWeeks records items slots configSlots).map
        (fun w => w.days)).join =
        (((groupByWeek (monthReportDayList records items slots configSlots)).map
          (fun w => w.days)).join).map
          (fun day => { day with hours := roundHours day.hours }) := by
      unfold monthReportWeeks
      rw [List.map_map]
      rw [List.map_join, List.map_map]
      rfl
    rw [h1, List.map_map]
    have h2 : ((fun d : ReportDay => d.date) ∘
        (fun day : ReportDay => { day with hours := roundHours day.hours })) =
        (fun d : ReportDay => d.date) := rfl
    rw [h2]
    exact ((groupByWeek_join_perm
      (monthReportDayList records items slots configSlots)).map (fun d => d.date)).mem_iff

/-- Claim C2, witness: the TEXT-item day appears in the day list, the
REF-only day does not. -/
theorem monthReport_day_filter_instance :
    "2026-02-03" ∈ (monthReportDayList sampleReportRecords sampleReportItems [] []).map
      (fun d => d.date) ∧
    "2026-02-04" ∉ (monthReportDayList sampleReportRecords sampleReportItems [] []).map
      (fun d => d.date) := by
  have h := monthReport_day_filter sampleReportRecords sampleReportItems [] [] (by decide)
  refine ⟨?_, ?_⟩
  · apply (h.1 "2026-02-03").mpr
    refine ⟨{ id := 1, work_date := "2026-02-03", created_time := "", updated_time := "" },
      by simp [sampleReportRecords], rfl,
      { id := 10, record_id := 1, item_type := 0, status := 2, text_value := some "done",
        ref_uid := none, progress_start := none, progress_end := none, sort := 0,
        created_time := "", updated_time := "" },
      by simp [sampleReportItems], rfl, rfl, "done", rfl, by decide⟩
  · intro hc
    obtain ⟨rec, hrec, hwd, it, hit, hrid, hty, s, htv, hlen⟩ := (h.1 "2026-02-04").mp hc
    have hrec2 := hrec
    simp only [sampleReportRecords, List.mem_cons, List.mem_singleton,
      List.not_mem_nil, or_false] at hrec2
    rcases hrec2 with rfl | rfl
    · exact absurd hwd (by decide)
    · have hit2 := hit
      simp only [sampleReportItems, List.mem_cons, List.mem_singleton,
        List.not_mem_nil, or_false] at hit2
      rcases hit2 with rfl | rfl
      · exact absurd hrid (by decide)
      · exact absurd hty (by decide)
